import Mathlib

/-!
Shallow embedding of the multi-level cache simulator
(Cache.cpp, MemoryManager.cpp, CacheHierarchy / main driver).

Machine integers are modelled as `Nat` (addresses are 32-bit values kept
below `2^32` by the masking the source itself performs; wrap-around is made
explicit where the source relies on it, e.g. the prefetcher's signed
stride arithmetic).  Cache `blocks` arrays and byte `data` arrays are
modelled as total functions from indices.
-/

namespace CacheSim

/-- Per-level statistics counters (`Cache::Statistics`). -/
structure Statistics where
  numRead : Nat
  numWrite : Nat
  numHit : Nat
  numMiss : Nat
  totalCycles : Nat
deriving Repr, DecidableEq

/-- Cache geometry and latency parameters (`Cache::Policy`). -/
structure Policy where
  cacheSize : Nat
  blockSize : Nat
  blockNum : Nat
  associativity : Nat
  hitLatency : Nat
  missLatency : Nat
deriving Repr, DecidableEq

/-- One cache block slot (`Cache::Block`). -/
structure Block where
  valid : Bool
  modified : Bool
  tag : Nat
  id : Nat
  size : Nat
  lastReference : Nat
  createdAt : Nat
  data : Nat → Nat

/-- The per-level mutable state of one `Cache` object, without the
victim-cache pointer (a victim cache is itself such a state). -/
structure CacheState where
  policy : Policy
  blocks : Nat → Block
  referenceCounter : Nat
  statistics : Statistics
  enableFifo : Bool

/-- A `Cache` object together with its optional victim cache
(`enableVictimCache` / `victimCache` members).  The victim's own victim
pointer is always null in the source, so the victim is a bare
`CacheState`. -/
structure CacheNode where
  self : CacheState
  enableVictimCache : Bool
  victim : Option CacheState

/-- `MemoryManager`: a sparse paged 32-bit memory.  A page is identified by
address bits 12..31 (the two directory levels `addr>>22 & 0x3FF`,
`addr>>12 & 0x3FF` combined). -/
structure Mem where
  pageExists : Nat → Bool
  bytes : Nat → Nat

/-- Page index of an address: both directory entries combined. -/
def pageOf (addr : Nat) : Nat := (addr >>> 12) &&& 0xFFFFF

/-- `MemoryManager::isPageExist`. -/
def Mem.isPageExist (m : Mem) (addr : Nat) : Bool := m.pageExists (pageOf addr)

/-- `MemoryManager::addPage`: allocate a zero-filled page; returns `false`
and leaves memory unchanged when the page already exists. -/
def Mem.addPage (m : Mem) (addr : Nat) : Bool × Mem :=
  if m.isPageExist addr then (false, m)
  else (true,
    { pageExists := fun p => p == pageOf addr || m.pageExists p
      bytes := fun a => if pageOf a == pageOf addr then 0 else m.bytes a })

/-- `MemoryManager::getByte`: reads from a missing page are a soft error
returning 0 (`return false`). -/
def Mem.getByte (m : Mem) (addr : Nat) : Nat :=
  if m.isPageExist addr then m.bytes addr else 0

/-- `MemoryManager::setByte`: writes to a missing page are a soft error
and are dropped. -/
def Mem.setByte (m : Mem) (addr v : Nat) : Mem :=
  if m.isPageExist addr then
    { m with bytes := fun a => if a == addr then v % 256 else m.bytes a }
  else m

/-- The all-empty initial memory. -/
def Mem.init : Mem := { pageExists := fun _ => false, bytes := fun _ => 0 }

/-- `std::bit_width(v) - 1`: the position of the highest set bit of a
positive 32-bit value (largest `k` with `2 ^ k ≤ v`), computed by a
bounded scan so that it evaluates by kernel reduction.  Exact for every
`v < 2 ^ 34`, which covers all `uint32_t` inputs of the source. -/
def floorLog2 (v : Nat) : Nat :=
  (List.range 33).foldl (fun acc k => if 2 ^ (k + 1) ≤ v then k + 1 else acc) 0

/-- `Cache::log2i`: floor log2, with `(uint32_t)-1` for 0. -/
def log2i (v : Nat) : Nat := if v = 0 then 2 ^ 32 - 1 else floorLog2 v

/-- `Cache::isPowerOfTwo`. -/
def isPowerOfTwo (n : Nat) : Bool := n > 0 && (n &&& (n - 1)) == 0

/-- `Cache::isPolicyValid`: the five construction-time checks. -/
def Policy.isValid (p : Policy) : Bool :=
  isPowerOfTwo p.cacheSize && isPowerOfTwo p.blockSize
    && p.cacheSize % p.blockSize == 0
    && p.blockNum * p.blockSize == p.cacheSize
    && p.blockNum % p.associativity == 0

namespace CacheState

/-- Number of offset bits: `log2i(blockSize)`. -/
def offsetBits (c : CacheState) : Nat := log2i c.policy.blockSize

/-- Number of set-index bits: `log2i(blockNum / associativity)`. -/
def idBits (c : CacheState) : Nat := log2i (c.policy.blockNum / c.policy.associativity)

/-- `Cache::getTag`. -/
def getTag (c : CacheState) (addr : Nat) : Nat :=
  (addr >>> (c.offsetBits + c.idBits)) &&& (2 ^ (32 - c.offsetBits - c.idBits) - 1)

/-- `Cache::getId`. -/
def getId (c : CacheState) (addr : Nat) : Nat :=
  (addr >>> c.offsetBits) &&& (2 ^ c.idBits - 1)

/-- `Cache::getOffset`. -/
def getOffset (c : CacheState) (addr : Nat) : Nat :=
  addr &&& (2 ^ c.offsetBits - 1)

/-- `Cache::getAddr`: base address of a block from its tag and set id. -/
def getAddr (c : CacheState) (b : Block) : Nat :=
  (b.tag <<< (c.offsetBits + c.idBits)) ||| (b.id <<< c.offsetBits)

/-- `Cache::getBlockId` with the "Inconsistent ID" fatal check elided
(`getBlockIdChecked` below keeps it; the check is proved unreachable).
Scans the `associativity` slots of the decoded set and returns the first
valid slot whose tag matches. -/
def getBlockId (c : CacheState) (addr : Nat) : Option Nat :=
  let tag := c.getTag addr
  let idx := c.getId addr
  ((List.range c.policy.associativity).find? fun j =>
      (c.blocks (idx * c.policy.associativity + j)).valid
        && (c.blocks (idx * c.policy.associativity + j)).tag == tag).map
    fun j => idx * c.policy.associativity + j

/-- `Cache::inCache`. -/
def inCache (c : CacheState) (addr : Nat) : Bool := (c.getBlockId addr).isSome

/-- Helper for `getBlockIdChecked`: the scan loop over slot offsets,
with the `Inconsistent ID` branch producing `.error i`. -/
def scanChecked (c : CacheState) (tag idx : Nat) : List Nat → Except Nat (Option Nat)
  | [] => .ok none
  | j :: js =>
    let i := idx * c.policy.associativity + j
    if (c.blocks i).id ≠ idx then .error i
    else if (c.blocks i).valid && (c.blocks i).tag == tag then .ok (some i)
    else scanChecked c tag idx js

/-- `Cache::getBlockId` including the `Inconsistent ID` fatal-error branch,
modelled as `Except` (the thrown block index is the error value). -/
def getBlockIdChecked (c : CacheState) (addr : Nat) : Except Nat (Option Nat) :=
  scanChecked c (c.getTag addr) (c.getId addr) (List.range c.policy.associativity)

/-- `Cache::getReplacementBlockId` over slots `[b, e)`:
first invalid slot, else FIFO (min `createdAt`), else LRU
(min `lastReference`); strict-`<` scans keep the lowest index on ties. -/
def getReplacementBlockId (c : CacheState) (b e : Nat) : Nat :=
  match (List.range' b (e - b)).find? (fun i => !(c.blocks i).valid) with
  | some i => i
  | none =>
    if c.enableFifo then
      ((List.range' (b + 1) (e - (b + 1))).foldl
        (fun acc i =>
          if (c.blocks i).createdAt < acc.2 then (i, (c.blocks i).createdAt) else acc)
        (b, (c.blocks b).createdAt)).1
    else
      ((List.range' b (e - b)).foldl
        (fun acc i =>
          if (c.blocks i).lastReference < acc.2 then (i, (c.blocks i).lastReference) else acc)
        (b, (c.blocks b).lastReference)).1

/-- `Cache::setInvalid`. -/
def setInvalid (c : CacheState) (addr : Nat) : CacheState :=
  match c.getBlockId addr with
  | some i =>
    { c with blocks := fun j => if j = i then { c.blocks i with valid := false } else c.blocks j }
  | none => c

end CacheState

/-- Fresh cache state built by the `Cache` constructor for a policy:
all slots invalid, `id = blockIndex / associativity`, `size = blockSize`,
zeroed data, zero counters, FIFO off. -/
def mkCacheState (p : Policy) : CacheState :=
  { policy := p
    blocks := fun i =>
      { valid := false, modified := false, tag := 0, id := i / p.associativity
        size := p.blockSize, lastReference := 0, createdAt := 0, data := fun _ => 0 }
    referenceCounter := 0
    statistics := ⟨0, 0, 0, 0, 0⟩
    enableFifo := false }

/-- A fresh `Cache` (no victim). -/
def mkCacheNode (p : Policy) : CacheNode :=
  { self := mkCacheState p, enableVictimCache := false, victim := none }

/-- Update one slot of a blocks array. -/
def updBlocks (f : Nat → Block) (i : Nat) (b : Block) : Nat → Block :=
  fun j => if j = i then b else f j

/-- The chain of lower cache levels below a given cache, indexed by its
depth (`lowerCache` pointers down to the terminating `MemoryManager`). -/
inductive Chain : Nat → Type where
  | nil : Chain 0
  | cons {n : Nat} (node : CacheNode) (lower : Chain n) : Chain (n + 1)

namespace Statistics

/-- `++statistics.numRead`. -/
def addRead (s : Statistics) : Statistics := { s with numRead := s.numRead + 1 }

/-- `++statistics.numWrite`. -/
def addWrite (s : Statistics) : Statistics := { s with numWrite := s.numWrite + 1 }

/-- `++statistics.numHit; statistics.totalCycles += cyc`. -/
def addHit (s : Statistics) (cyc : Nat) : Statistics :=
  { s with numHit := s.numHit + 1, totalCycles := s.totalCycles + cyc }

/-- `++statistics.numMiss; statistics.totalCycles += cyc`. -/
def addMiss (s : Statistics) (cyc : Nat) : Statistics :=
  { s with numMiss := s.numMiss + 1, totalCycles := s.totalCycles + cyc }

end Statistics

/-- The direct-from-memory fill loop of `loadBlockFromLowerLevel`
(`block.data[i - blockAddrBegin] = memoryManager->getByte(i)`). -/
def copyFromMem (m : Mem) (base size : Nat) (data : Nat → Nat) : Nat → Nat :=
  (List.range size).foldl
    (fun d i => fun k => if k = i then m.getByte (base + i) else d k) data

/-- The direct-to-memory loop of `writeBlockToLowerLevel`
(`memoryManager->setByte(addrBegin + i, block.data[i])`). -/
def writeBlockToMem (m : Mem) (base : Nat) (b : Block) : Mem :=
  (List.range b.size).foldl (fun mm i => mm.setByte (base + i) (b.data i)) m

/-- Result of one cache operation at a given level: the level's updated
state, its updated victim cache, the updated lower chain and memory.
`enableVictimCache` is configuration, never touched by the access path,
so it is not part of the result. -/
structure OpResult (n : Nat) where
  self : CacheState
  victim : Option CacheState
  rest : Chain n
  mem : Mem

/-- Package an unchanged node as an operation result. -/
def CacheNode.toRes {n : Nat} (c : CacheNode) (rest : Chain n) (m : Mem) : OpResult n :=
  ⟨c.self, c.victim, rest, m⟩

/-- Rebuild the node from an operation result (the flag is unchanged). -/
def OpResult.node {n : Nat} (r : OpResult n) (flag : Bool) : CacheNode :=
  ⟨r.self, flag, r.victim⟩

/-- The operations of one cache level over its lower chain:
`Cache::getByte`, `Cache::setByte` and `Cache::loadBlockFromLowerLevel`. -/
structure NodeOps (n : Nat) where
  get : CacheNode → Chain n → Mem → Nat → Nat × OpResult n
  set : CacheNode → Chain n → Mem → Nat → Nat → OpResult n
  load : CacheNode → Chain n → Mem → Nat → Bool → OpResult n

/-- The same operations as invoked through a `lowerCache` pointer: they
act on the head of a (necessarily non-empty) chain. -/
structure ChainOps (n : Nat) where
  get : Chain n → Mem → Nat → Nat × Chain n × Mem
  set : Chain n → Mem → Nat → Nat → Chain n × Mem
  load : Chain n → Mem → Nat → Bool → Chain n × Mem

/-- The byte-copy loop reading `k` consecutive bytes starting at
`base + i` through a given `getByte`, filling `data` at offsets
`i, i+1, ...` (`newBlock.data[i - blockAddrBegin] = getByte(i)`). -/
def copyFromLoop {n : Nat} (get : CacheNode → Chain n → Mem → Nat → Nat × OpResult n) :
    Nat → CacheNode → Chain n → Mem → Nat → Nat → (Nat → Nat) → (Nat → Nat) × OpResult n
  | 0, c, rest, m, _, _, data => (data, c.toRes rest m)
  | k + 1, c, rest, m, base, i, data =>
    let rb := get c rest m (base + i)
    copyFromLoop get k (rb.2.node c.enableVictimCache) rb.2.rest rb.2.mem base (i + 1)
      (fun j => if j = i then rb.1 else data j)

/-- The byte-copy loop writing `k` consecutive bytes `data 0, data 1, ...`
to `base, base+1, ...` through a given `setByte`. -/
def copyToLoop {n : Nat} (set : CacheNode → Chain n → Mem → Nat → Nat → OpResult n) :
    Nat → CacheNode → Chain n → Mem → Nat → Nat → (Nat → Nat) → OpResult n
  | 0, c, rest, m, _, _, _ => c.toRes rest m
  | k + 1, c, rest, m, base, i, data =>
    let rb := set c rest m (base + i) (data i)
    copyToLoop set k (rb.node c.enableVictimCache) rb.rest rb.mem base (i + 1) data

/-- Byte-copy loop reading through the lower chain's `getByte`. -/
def copyFromChainLoop {n : Nat} (get : Chain n → Mem → Nat → Nat × Chain n × Mem) :
    Nat → Chain n → Mem → Nat → Nat → (Nat → Nat) → (Nat → Nat) × Chain n × Mem
  | 0, ch, m, _, _, data => (data, ch, m)
  | k + 1, ch, m, base, i, data =>
    let rb := get ch m (base + i)
    copyFromChainLoop get k rb.2.1 rb.2.2 base (i + 1)
      (fun j => if j = i then rb.1 else data j)

/-- Byte-copy loop writing through the lower chain's `setByte`. -/
def copyToChainLoop {n : Nat} (set : Chain n → Mem → Nat → Nat → Chain n × Mem) :
    Nat → Chain n → Mem → Nat → Nat → (Nat → Nat) → Chain n × Mem
  | 0, ch, m, _, _, _ => (ch, m)
  | k + 1, ch, m, base, i, data =>
    let rb := set ch m (base + i) (data i)
    copyToChainLoop set k rb.1 rb.2 base (i + 1) data

/-- Placeholder `getByte` standing in the victim branches of a victim
cache's own operations.  A victim cache is constructed with
`enableVictimCache = false` and no victim of its own, so those branches
never execute on it. -/
def deadVicGet {n : Nat} : CacheNode → Chain n → Mem → Nat → Nat × OpResult n :=
  fun c rest m _ => (0, c.toRes rest m)

/-- Placeholder `setByte` for the same never-executed victim branches. -/
def deadVicSet {n : Nat} : CacheNode → Chain n → Mem → Nat → Nat → OpResult n :=
  fun c rest m _ _ => c.toRes rest m

/-- Placeholder operations on the empty chain: every caller tests
`lowerCache != nullptr` (matches `.cons`) before using them, so they are
never invoked. -/
def nilChainOps (n : Nat) : ChainOps n :=
  { get := fun ch m _ => (0, ch, m)
    set := fun ch m _ _ => (ch, m)
    load := fun ch m _ _ => (ch, m) }

/-- `Cache::writeBlockToLowerLevel`, with its collaborators abstracted:
write the block's bytes into the victim cache when enabled, else
byte-by-byte into the lower cache, else into memory. -/
def mkWriteBlock {n : Nat} (vicSet : CacheNode → Chain n → Mem → Nat → Nat → OpResult n)
    (low : ChainOps n) (c : CacheNode) (rest : Chain n) (m : Mem)
    (block : Block) : OpResult n :=
  let addrBegin := c.self.getAddr block
  match c.enableVictimCache, c.victim with
  | true, some v =>
    let rb := copyToLoop vicSet block.size ⟨v, false, none⟩ rest m addrBegin 0 block.data
    ⟨c.self, some rb.self, rb.rest, rb.mem⟩
  | _, _ =>
    match rest with
    | .cons c2 rest2 =>
      let rb := copyToChainLoop low.set block.size (.cons c2 rest2) m addrBegin 0 block.data
      ⟨c.self, c.victim, rb.1, rb.2⟩
    | .nil => ⟨c.self, c.victim, .nil, writeBlockToMem m addrBegin block⟩

/-- The eviction and install tail of `Cache::loadBlockFromLowerLevel`:
write back a dirty evicted block (charging this level `missLatency`),
move a clean one into the victim cache when enabled, then overwrite the
chosen slot with the new block. -/
def mkEvictInstall {n : Nat}
    (writeBlock : CacheNode → Chain n → Mem → Block → OpResult n)
    (vicSet : CacheNode → Chain n → Mem → Nat → Nat → OpResult n)
    (c : CacheNode) (rest : Chain n) (m : Mem)
    (replacedBlockIdx : Nat) (replaceBlock newBlock : Block) : OpResult n :=
  let r :=
    if replaceBlock.valid then
      if replaceBlock.modified then
        let ra := writeBlock c rest m replaceBlock
        let cyc := ra.self.statistics.totalCycles + ra.self.policy.missLatency
        { ra with self.statistics.totalCycles := cyc }
      else
        match c.enableVictimCache, c.victim with
        | true, some v =>
          let evictedAddr := c.self.getAddr replaceBlock
          let rb := copyToLoop vicSet replaceBlock.size ⟨v, false, none⟩ rest m
            evictedAddr 0 replaceBlock.data
          ⟨c.self, some rb.self, rb.rest, rb.mem⟩
        | _, _ => c.toRes rest m
    else c.toRes rest m
  { r with self.blocks := updBlocks r.self.blocks replacedBlockIdx newBlock }

/-- The `!readFromVictimCache` part of `Cache::loadBlockFromLowerLevel`:
probe the lower cache (accounting a read/write and a hit or miss with its
latency there, recursing into its own load on a miss), copy the block's
bytes via the lower level's `getByte` (or straight from memory when this
is the last level), then evict and install. -/
def mkLoadVia {n : Nat} (low : ChainOps n)
    (evict : CacheNode → Chain n → Mem → Nat → Block → Block → OpResult n)
    (c : CacheNode) (rest : Chain n) (m : Mem) (blockAddrBegin : Nat) (isRead : Bool)
    (newBlock : Block) (replacedBlockIdx : Nat) (replaceBlock : Block) : OpResult n :=
  let blockSize := c.self.policy.blockSize
  match rest with
  | .cons c2 rest2 =>
    let stats2 := if isRead then c2.self.statistics.addRead else c2.self.statistics.addWrite
    let c2a : CacheNode := { c2 with self.statistics := stats2 }
    let rp :=
      if c2a.self.inCache blockAddrBegin then
        let statsh := c2a.self.statistics.addHit c2a.self.policy.hitLatency
        ((Chain.cons ({ c2a with self.statistics := statsh }) rest2), m)
      else
        let statsm := c2a.self.statistics.addMiss c2a.self.policy.missLatency
        low.load (.cons ({ c2a with self.statistics := statsm }) rest2) m blockAddrBegin isRead
    let rc := copyFromChainLoop low.get blockSize rp.1 rp.2 blockAddrBegin 0 newBlock.data
    evict c rc.2.1 rc.2.2 replacedBlockIdx replaceBlock ({ newBlock with data := rc.1 })
  | .nil =>
    let data2 := copyFromMem m blockAddrBegin blockSize newBlock.data
    evict c .nil m replacedBlockIdx replaceBlock ({ newBlock with data := data2 })

/-- `Cache::loadBlockFromLowerLevel` head: stage a new block, pick the
victim slot, consult the victim cache when enabled (accounting a victim
read/write and a victim hit or miss there; on a victim hit copy the line
from the victim, invalidate it there and skip the lower-level fetch),
otherwise fetch through the lower level; then evict and install. -/
def mkLoad {n : Nat} (vicGet : CacheNode → Chain n → Mem → Nat → Nat × OpResult n)
    (evict : CacheNode → Chain n → Mem → Nat → Block → Block → OpResult n)
    (loadVia : CacheNode → Chain n → Mem → Nat → Bool → Block → Nat → Block → OpResult n)
    (c : CacheNode) (rest : Chain n) (m : Mem) (addr : Nat) (isRead : Bool) : OpResult n :=
  let blockSize := c.self.policy.blockSize
  let newBlock : Block :=
    { valid := true, modified := false, tag := c.self.getTag addr, id := c.self.getId addr
      size := blockSize, lastReference := c.self.referenceCounter
      createdAt := c.self.referenceCounter, data := fun _ => 0 }
  let bits := log2i blockSize
  let blockAddrBegin := addr &&& (2 ^ 32 - 2 ^ bits)
  let idx := c.self.getId addr
  let replacedBlockIdx :=
    c.self.getReplacementBlockId (idx * c.self.policy.associativity)
      ((idx + 1) * c.self.policy.associativity)
  let replaceBlock := c.self.blocks replacedBlockIdx
  match c.enableVictimCache, c.victim with
  | true, some v =>
    let v1 := { v with statistics :=
                  if isRead then v.statistics.addRead else v.statistics.addWrite }
    if v1.inCache blockAddrBegin then
      let v2 := { v1 with statistics := v1.statistics.addHit v1.policy.hitLatency }
      let rc := copyFromLoop vicGet blockSize ⟨v2, false, none⟩ rest m blockAddrBegin 0
        newBlock.data
      let v3 := rc.2.self.setInvalid blockAddrBegin
      evict ⟨c.self, c.enableVictimCache, some v3⟩ rc.2.rest rc.2.mem
        replacedBlockIdx replaceBlock ({ newBlock with data := rc.1 })
    else
      let v2 := { v1 with statistics := v1.statistics.addMiss v1.policy.missLatency }
      loadVia ⟨c.self, c.enableVictimCache, some v2⟩ rest m blockAddrBegin isRead
        newBlock replacedBlockIdx replaceBlock
  | _, _ =>
    loadVia c rest m blockAddrBegin isRead newBlock replacedBlockIdx replaceBlock

/-- `Cache::getByte` with its `loadBlockFromLowerLevel` abstracted: bump
the reference counter, return the byte on a hit (refreshing
`lastReference`), otherwise load from the lower level first.  The
post-load "data not in top level cache" throw is modelled as returning 0
with the state unchanged (proved unreachable for valid policies). -/
def mkGetByte {n : Nat} (load : CacheNode → Chain n → Mem → Nat → Bool → OpResult n)
    (c : CacheNode) (rest : Chain n) (m : Mem) (addr : Nat) : Nat × OpResult n :=
  let s1 := { c.self with referenceCounter := c.self.referenceCounter + 1 }
  match s1.getBlockId addr with
  | some blockId =>
    let b := s1.blocks blockId
    let blocks2 := updBlocks s1.blocks blockId ({ b with lastReference := s1.referenceCounter })
    (b.data (s1.getOffset addr), ⟨{ s1 with blocks := blocks2 }, c.victim, rest, m⟩)
  | none =>
    let r := load ⟨s1, c.enableVictimCache, c.victim⟩ rest m addr true
    match r.self.getBlockId addr with
    | some blockId =>
      let b := r.self.blocks blockId
      let blocks2 := updBlocks r.self.blocks blockId ({ b with lastReference := r.self.referenceCounter })
      (b.data (r.self.getOffset addr), ⟨{ r.self with blocks := blocks2 }, r.victim, r.rest, r.mem⟩)
    | none => (0, r)

/-- `Cache::setByte` with its `loadBlockFromLowerLevel` abstracted: bump
the reference counter; on a hit mark modified, refresh `lastReference`
and store the byte; on a miss load from the lower level first, then do
the same (the unreachable "data not in top level cache" throw is
modelled as leaving the loaded state unchanged). -/
def mkSetByte {n : Nat} (load : CacheNode → Chain n → Mem → Nat → Bool → OpResult n)
    (c : CacheNode) (rest : Chain n) (m : Mem) (addr v : Nat) : OpResult n :=
  let s1 := { c.self with referenceCounter := c.self.referenceCounter + 1 }
  match s1.getBlockId addr with
  | some blockId =>
    let b := s1.blocks blockId
    let b2 := { b with modified := true, lastReference := s1.referenceCounter
                       data := fun k => if k = s1.getOffset addr then v % 256 else b.data k }
    ⟨{ s1 with blocks := updBlocks s1.blocks blockId b2 }, c.victim, rest, m⟩
  | none =>
    let r := load ⟨s1, c.enableVictimCache, c.victim⟩ rest m addr false
    match r.self.getBlockId addr with
    | some blockId =>
      let b := r.self.blocks blockId
      let b2 := { b with modified := true, lastReference := r.self.referenceCounter
                         data := fun k => if k = r.self.getOffset addr then v % 256 else b.data k }
      ⟨{ r.self with blocks := updBlocks r.self.blocks blockId b2 }, r.victim, r.rest, r.mem⟩
    | none => r

/-- Tie the per-level knot.  The bare instances are the operations as a
victim cache executes them (`enableVictimCache = false`: their victim
branches are dead, so the placeholder closures are never invoked); the
full instances use the bare ones to drive the victim cache, exactly as
the parent `Cache` calls the victim object's methods. -/
def mkNodeOps {n : Nat} (low : ChainOps n) : NodeOps n :=
  let bareWrite := mkWriteBlock deadVicSet low
  let bareEvict := mkEvictInstall bareWrite deadVicSet
  let bareLoadVia := mkLoadVia low bareEvict
  let bareLoad := mkLoad deadVicGet bareEvict bareLoadVia
  let bareGet := mkGetByte bareLoad
  let bareSet := mkSetByte bareLoad
  let write := mkWriteBlock bareSet low
  let evict := mkEvictInstall write bareSet
  let loadVia := mkLoadVia low evict
  let load := mkLoad bareGet evict loadVia
  ⟨mkGetByte load, mkSetByte load, load⟩

/-- View a level's operations as operations on the head of the chain one
link longer (the `lowerCache->` call form). -/
def liftNode {n : Nat} (no : NodeOps n) : ChainOps (n + 1) :=
  { get := fun ch m a =>
      match ch with
      | .cons c2 rest2 =>
        let r := no.get c2 rest2 m a
        (r.1, .cons (r.2.node c2.enableVictimCache) r.2.rest, r.2.mem)
    set := fun ch m a v =>
      match ch with
      | .cons c2 rest2 =>
        let r := no.set c2 rest2 m a v
        (.cons (r.node c2.enableVictimCache) r.rest, r.mem)
    load := fun ch m a isRead =>
      match ch with
      | .cons c2 rest2 =>
        let r := no.load c2 rest2 m a isRead
        (.cons (r.node c2.enableVictimCache) r.rest, r.mem) }

/-- The chain-of-levels operations, by recursion on the chain depth. -/
def chainOps : (n : Nat) → ChainOps n
  | 0 => nilChainOps 0
  | n + 1 => liftNode (mkNodeOps (chainOps n))

/-- `Cache::getByte` of a cache over an `n`-level lower chain. -/
def cacheGetByte {n : Nat} (c : CacheNode) (rest : Chain n) (m : Mem) (addr : Nat) :
    Nat × OpResult n :=
  (mkNodeOps (chainOps n)).get c rest m addr

/-- `Cache::setByte` of a cache over an `n`-level lower chain. -/
def cacheSetByte {n : Nat} (c : CacheNode) (rest : Chain n) (m : Mem) (addr v : Nat) :
    OpResult n :=
  (mkNodeOps (chainOps n)).set c rest m addr v

/-- `Cache::loadBlockFromLowerLevel` of a cache over an `n`-level lower
chain. -/
def loadBlockFromLowerLevel {n : Nat} (c : CacheNode) (rest : Chain n) (m : Mem)
    (addr : Nat) (isRead : Bool) : OpResult n :=
  (mkNodeOps (chainOps n)).load c rest m addr isRead

/-- `Cache::fetch`: the prefetcher's entry point; loads the block only if
it is absent, with no statistics accounting at this level. -/
def cacheFetch {n : Nat} (c : CacheNode) (rest : Chain n) (m : Mem) (addr : Nat) :
    OpResult n :=
  match c.self.getBlockId addr with
  | some _ => c.toRes rest m
  | none => loadBlockFromLowerLevel c rest m addr true

/-- `Cache::read`: account one read plus a hit (hitLatency) or miss
(missLatency), then perform `getByte`. -/
def cacheRead {n : Nat} (c : CacheNode) (rest : Chain n) (m : Mem) (addr : Nat) :
    Nat × OpResult n :=
  let s1 := { c.self with statistics := c.self.statistics.addRead }
  let s2 :=
    if s1.inCache addr then
      { s1 with statistics := s1.statistics.addHit s1.policy.hitLatency }
    else
      { s1 with statistics := s1.statistics.addMiss s1.policy.missLatency }
  cacheGetByte ⟨s2, c.enableVictimCache, c.victim⟩ rest m addr

/-- `Cache::write`: account one write plus a hit or miss, then `setByte`. -/
def cacheWrite {n : Nat} (c : CacheNode) (rest : Chain n) (m : Mem) (addr v : Nat) :
    OpResult n :=
  let s1 := { c.self with statistics := c.self.statistics.addWrite }
  let s2 :=
    if s1.inCache addr then
      { s1 with statistics := s1.statistics.addHit s1.policy.hitLatency }
    else
      { s1 with statistics := s1.statistics.addMiss s1.policy.missLatency }
  cacheSetByte ⟨s2, c.enableVictimCache, c.victim⟩ rest m addr v

/-- The hard-coded victim-cache policy of `Cache::setVictimCache`:
8 KiB, 64-byte blocks, fully associative, hitLatency 1, missLatency 8. -/
def victimCachePolicy : Policy :=
  { cacheSize := 8 * 1024, blockSize := 64, blockNum := 8 * 1024 / 64
    associativity := 8 * 1024 / 64, hitLatency := 1, missLatency := 8 }

/-- `Cache::setVictimCache`: set the flag; when enabling, construct a fresh
victim cache with the hard-coded fully-associative policy (the victim
shares this cache's memory manager and lower cache, which in this model
is implicit: victim operations run over the same lower chain). -/
def CacheNode.setVictimCache (c : CacheNode) (enable : Bool) : CacheNode :=
  if enable then
    { c with enableVictimCache := enable, victim := some (mkCacheState victimCachePolicy) }
  else
    { c with enableVictimCache := enable, victim := none }

/-- `Cache::getStatistics`: raw counters, with the victim-cache hit
adjustment (`numMiss -= victim.numHit; numHit += victim.numHit`) when a
victim cache is enabled.  Counter subtraction is `Nat` truncated
subtraction here; the source's unsigned counters agree with it whenever
no underflow occurs. -/
def CacheNode.getStatistics (c : CacheNode) : Statistics :=
  let stats := c.self.statistics
  if c.enableVictimCache then
    match c.victim with
    | some v =>
      { stats with numMiss := stats.numMiss - v.statistics.numHit
                   numHit := stats.numHit + v.statistics.numHit }
    | none => stats
  else stats

/-- `MultiLevelCacheConfig::L1`: 16 KiB, 64 B blocks, direct-mapped,
hitLatency 1, missLatency 8. -/
def L1Config : Policy :=
  { cacheSize := 16 * 1024, blockSize := 64, blockNum := 16 * 1024 / 64
    associativity := 1, hitLatency := 1, missLatency := 8 }

/-- `MultiLevelCacheConfig::L2`: 128 KiB, 64 B blocks, 8-way,
hitLatency 8, missLatency 20. -/
def L2Config : Policy :=
  { cacheSize := 128 * 1024, blockSize := 64, blockNum := 128 * 1024 / 64
    associativity := 8, hitLatency := 8, missLatency := 20 }

/-- `MultiLevelCacheConfig::L3`: 2 MiB, 64 B blocks, 16-way,
hitLatency 20, missLatency 100. -/
def L3Config : Policy :=
  { cacheSize := 2048 * 1024, blockSize := 64, blockNum := 2048 * 1024 / 64
    associativity := 16, hitLatency := 20, missLatency := 100 }

/-- `CacheHierarchy::PrefetchStatistics`. -/
structure PrefetchStatistics where
  isPrefetching : Bool
  stride : Int
  sameStrideCount : Nat
  diffStrideCount : Nat
  lastAccessAddress : Nat
deriving Repr, DecidableEq

/-- Zero-initialised prefetcher state. -/
def initPrefetchStatistics : PrefetchStatistics :=
  { isPrefetching := false, stride := 0, sameStrideCount := 0
    diffStrideCount := 0, lastAccessAddress := 0 }

/-- Two's-complement wrap of an integer into `int32_t`. -/
def int32OfInt (z : Int) : Int := (z + 2 ^ 31) % 2 ^ 32 - 2 ^ 31

/-- Wrap of an integer into `uint32_t`. -/
def uint32OfInt (z : Int) : Nat := (z % 2 ^ 32).toNat

/-- The `CacheHierarchy` driver state: L1 plus the chain of lower levels
(L2, L3 for the real hierarchy), the shared paged memory, the three
option flags, and the prefetcher state. -/
structure Hierarchy (n : Nat) where
  l1 : CacheNode
  lower : Chain n
  mem : Mem
  enablePrefetch : Bool
  enableFifo : Bool
  enableVictimCache : Bool
  prefetchStatistics : PrefetchStatistics

/-- The `CacheHierarchy` constructor: L3 over memory, L2 over L3, L1 over
L2 (flags are stored; the constructor applies none of them to the cache
objects). -/
def mkHierarchy (enablePrefetch enableFifo enableVictimCache : Bool) : Hierarchy 2 :=
  { l1 := mkCacheNode L1Config
    lower := .cons (mkCacheNode L2Config) (.cons (mkCacheNode L3Config) .nil)
    mem := Mem.init
    enablePrefetch := enablePrefetch
    enableFifo := enableFifo
    enableVictimCache := enableVictimCache
    prefetchStatistics := initPrefetchStatistics }

namespace Hierarchy

/-- `l1Cache.fetch(addr)` within the hierarchy. -/
def fetchL1 {n : Nat} (h : Hierarchy n) (addr : Nat) : Hierarchy n :=
  let r := cacheFetch h.l1 h.lower h.mem addr
  { h with l1 := r.node h.l1.enableVictimCache, lower := r.rest, mem := r.mem }

/-- `l1Cache.read(addr)` within the hierarchy (the byte is discarded by
the driver). -/
def readL1 {n : Nat} (h : Hierarchy n) (addr : Nat) : Hierarchy n :=
  let r := cacheRead h.l1 h.lower h.mem addr
  { h with l1 := r.2.node h.l1.enableVictimCache, lower := r.2.rest, mem := r.2.mem }

/-- `l1Cache.write(addr, v)` within the hierarchy. -/
def writeL1 {n : Nat} (h : Hierarchy n) (addr v : Nat) : Hierarchy n :=
  let r := cacheWrite h.l1 h.lower h.mem addr v
  { h with l1 := r.node h.l1.enableVictimCache, lower := r.rest, mem := r.mem }

/-- The page-ensuring step of `processMemoryAccess`
(`if (!memory->isPageExist(addr)) memory->addPage(addr)`). -/
def ensurePage {n : Nat} (h : Hierarchy n) (addr : Nat) : Hierarchy n :=
  if h.mem.isPageExist addr then h else { h with mem := (h.mem.addPage addr).2 }

/-- The prefetch-issue step of `processMemoryAccess`: while prefetching
is active, ensure the page of `addr + stride` exists and `fetch` that
address into L1. -/
def prefetchIssue {n : Nat} (h : Hierarchy n) (addr : Nat) : Hierarchy n :=
  if h.prefetchStatistics.isPrefetching then
    let prefetchAddr := uint32OfInt ((addr : Int) + h.prefetchStatistics.stride)
    let h2 := if h.mem.isPageExist prefetchAddr then h
              else { h with mem := (h.mem.addPage prefetchAddr).2 }
    h2.fetchL1 prefetchAddr
  else h

end Hierarchy

/-- The stride-predictor update of `processMemoryAccess`, exactly as the
source sequences it: bump the same/inconsistent run lengths (latching a
changed stride), then activate on `sameStrideCount > 3`, then deactivate
on `diffStrideCount > 3`, then record the address. -/
def strideUpdate (ps : PrefetchStatistics) (addr : Nat) : PrefetchStatistics :=
  let ps1 :=
    if int32OfInt ((addr : Int) - (ps.lastAccessAddress : Int)) == ps.stride then
      { ps with sameStrideCount := ps.sameStrideCount + 1, diffStrideCount := 0 }
    else
      { ps with diffStrideCount := ps.diffStrideCount + 1, sameStrideCount := 0
                stride := int32OfInt ((addr : Int) - (ps.lastAccessAddress : Int)) }
  let ps2 := if ps1.sameStrideCount > 3 then { ps1 with isPrefetching := true } else ps1
  let ps3 := if ps2.diffStrideCount > 3 then { ps2 with isPrefetching := false } else ps2
  { ps3 with lastAccessAddress := addr }

namespace Hierarchy

/-- `CacheHierarchy::processMemoryAccess`: ensure the backing page exists;
when prefetching is enabled issue the active prefetch and run the stride
predictor; then dispatch `r`/`w` to L1 (an unknown operation throws in
the source; modelled as leaving the state unchanged). -/
def processMemoryAccess {n : Nat} (h : Hierarchy n) (operation : Char) (addr : Nat) :
    Hierarchy n :=
  let h := ensurePage h addr
  let h :=
    if h.enablePrefetch then
      let h1 := prefetchIssue h addr
      { h1 with prefetchStatistics := strideUpdate h1.prefetchStatistics addr }
    else h
  match operation with
  | 'r' => h.readL1 addr
  | 'w' => h.writeL1 addr 0
  | _ => h

/-- The driver's trace loop: process records in order. -/
def processTrace {n : Nat} (h : Hierarchy n) (tr : List (Char × Nat)) : Hierarchy n :=
  tr.foldl (fun h p => h.processMemoryAccess p.1 p.2) h

end Hierarchy

/-! ## Invariant infrastructure

`statDeltaOk` says an operation changed `numHit + numMiss` and
`numRead + numWrite` by the same amount; `fourEq` says it changed none of
the four counters.  `idInvS` is the structural set-id invariant behind
the `Inconsistent ID` check.  `stRelHead`/`stRel` package what every
cache operation guarantees for the level it runs on, respectively for
levels further down the chain. -/

/-- `numHit + numMiss == numRead + numWrite` for one counter record. -/
def statOk (s : Statistics) : Prop :=
  s.numHit + s.numMiss = s.numRead + s.numWrite

/-- The operation changed outcomes (hit+miss) and accesses (read+write)
by the same amount (stated cross-wise to stay in `Nat`). -/
def statDeltaOk (s s' : Statistics) : Prop :=
  s'.numHit + s'.numMiss + s.numRead + s.numWrite
    = s.numHit + s.numMiss + s'.numRead + s'.numWrite

/-- The operation changed none of the four counters (cycles are free). -/
def fourEq (s s' : Statistics) : Prop :=
  s'.numRead = s.numRead ∧ s'.numWrite = s.numWrite
    ∧ s'.numHit = s.numHit ∧ s'.numMiss = s.numMiss

/-- Every slot's structural set id is its index over the associativity. -/
def idInvS (c : CacheState) : Prop :=
  ∀ i, (c.blocks i).id = i / c.policy.associativity

/-- What an operation guarantees about a cache state it only touches
through lower-level probes and victim bookkeeping: configuration
unchanged, counter deltas balanced, id invariant preserved. -/
def stRel (s s' : CacheState) : Prop :=
  s'.policy = s.policy ∧ s'.enableFifo = s.enableFifo
    ∧ statDeltaOk s.statistics s'.statistics
    ∧ (0 < s.policy.associativity → idInvS s → idInvS s')

/-- What an operation guarantees for the very level it runs on: as
`stRel`, but none of the four counters moved at all. -/
def stRelHead (s s' : CacheState) : Prop :=
  s'.policy = s.policy ∧ s'.enableFifo = s.enableFifo
    ∧ fourEq s.statistics s'.statistics
    ∧ (0 < s.policy.associativity → idInvS s → idInvS s')

/-- `stRel` on optional victim caches (presence is preserved). -/
def optStRel : Option CacheState → Option CacheState → Prop
  | none, none => True
  | some a, some b => stRel a b
  | _, _ => False

/-- `stRel` together with flag preservation over every node of a chain. -/
inductive ChainRel : {n : Nat} → Chain n → Chain n → Prop where
  | nil : ChainRel .nil .nil
  | cons {n : Nat} {c c' : CacheNode} {r r' : Chain n} :
      stRel c.self c'.self → c'.enableVictimCache = c.enableVictimCache →
      optStRel c.victim c'.victim → ChainRel r r' → ChainRel (.cons c r) (.cons c' r')

/-- As `ChainRel`, but the head's four counters are untouched (what a
call through the `lowerCache` pointer itself guarantees: any counter
movement at that level is done explicitly by the caller). -/
inductive ChainRelS : {n : Nat} → Chain n → Chain n → Prop where
  | nil : ChainRelS .nil .nil
  | cons {n : Nat} {c c' : CacheNode} {r r' : Chain n} :
      stRelHead c.self c'.self → c'.enableVictimCache = c.enableVictimCache →
      optStRel c.victim c'.victim → ChainRel r r' → ChainRelS (.cons c r) (.cons c' r')

/-- What every node-level operation guarantees relative to its inputs. -/
def resRelS {n : Nat} (c : CacheNode) (rest : Chain n) (r : OpResult n) : Prop :=
  stRelHead c.self r.self ∧ optStRel c.victim r.victim ∧ ChainRel rest r.rest

def statDeltaOk.refl (s : Statistics) : statDeltaOk s s := rfl

def statDeltaOk.trans {a b c : Statistics} (h1 : statDeltaOk a b)
    (h2 : statDeltaOk b c) : statDeltaOk a c := by
  simp only [statDeltaOk] at *; omega

def fourEq.refl (s : Statistics) : fourEq s s := ⟨rfl, rfl, rfl, rfl⟩

def fourEq.trans {a b c : Statistics} (h1 : fourEq a b) (h2 : fourEq b c) :
    fourEq a c := by
  obtain ⟨e1, e2, e3, e4⟩ := h1; obtain ⟨f1, f2, f3, f4⟩ := h2
  exact ⟨f1.trans e1, f2.trans e2, f3.trans e3, f4.trans e4⟩

theorem fourEq.toDelta {a b : Statistics} (h : fourEq a b) : statDeltaOk a b := by
  obtain ⟨e1, e2, e3, e4⟩ := h
  simp only [statDeltaOk, e1, e2, e3, e4]

def stRel.refl (s : CacheState) : stRel s s :=
  ⟨rfl, rfl, statDeltaOk.refl _, fun _ h => h⟩

def stRel.trans {a b c : CacheState} (h1 : stRel a b) (h2 : stRel b c) :
    stRel a c := by
  obtain ⟨p1, f1, d1, i1⟩ := h1; obtain ⟨p2, f2, d2, i2⟩ := h2
  refine ⟨p2.trans p1, f2.trans f1, d1.trans d2, fun ha hi => ?_⟩
  exact i2 (p1 ▸ ha) (i1 ha hi)

def stRelHead.refl (s : CacheState) : stRelHead s s :=
  ⟨rfl, rfl, fourEq.refl _, fun _ h => h⟩

def stRelHead.trans {a b c : CacheState} (h1 : stRelHead a b)
    (h2 : stRelHead b c) : stRelHead a c := by
  obtain ⟨p1, f1, d1, i1⟩ := h1; obtain ⟨p2, f2, d2, i2⟩ := h2
  refine ⟨p2.trans p1, f2.trans f1, d1.trans d2, fun ha hi => ?_⟩
  exact i2 (p1 ▸ ha) (i1 ha hi)

def stRelHead.toRel {a b : CacheState} (h : stRelHead a b) : stRel a b :=
  ⟨h.1, h.2.1, h.2.2.1.toDelta, h.2.2.2⟩

def optStRel.refl (v : Option CacheState) : optStRel v v := by
  cases v <;> simp [optStRel, stRel.refl]

def optStRel.trans {a b c : Option CacheState} (h1 : optStRel a b)
    (h2 : optStRel b c) : optStRel a c := by
  cases a <;> cases b <;> cases c <;> simp [optStRel] at * <;> exact h1.trans h2

def ChainRel.refl : ∀ {n : Nat} (ch : Chain n), ChainRel ch ch
  | _, .nil => .nil
  | _, .cons c r => .cons (stRel.refl _) rfl (optStRel.refl _) (ChainRel.refl r)

def ChainRel.trans : ∀ {n : Nat} {a b c : Chain n},
    ChainRel a b → ChainRel b c → ChainRel a c
  | _, _, _, _, .nil, .nil => .nil
  | _, _, _, _, .cons s1 e1 v1 r1, .cons s2 e2 v2 r2 =>
    .cons (s1.trans s2) (e2.trans e1) (v1.trans v2) (ChainRel.trans r1 r2)

def ChainRelS.toRel : ∀ {n : Nat} {a b : Chain n}, ChainRelS a b → ChainRel a b
  | _, _, _, .nil => .nil
  | _, _, _, .cons s1 e1 v1 r1 => .cons s1.toRel e1 v1 r1

def resRelS.refl {n : Nat} (c : CacheNode) (rest : Chain n) (m : Mem) :
    resRelS c rest (c.toRes rest m) :=
  ⟨stRelHead.refl _, optStRel.refl _, ChainRel.refl _⟩

def resRelS.trans {n : Nat} {c : CacheNode} {rest : Chain n} {r : OpResult n}
    {r' : OpResult n} (f : Bool) (h1 : resRelS c rest r)
    (h2 : resRelS (r.node f) r.rest r') : resRelS c rest r' :=
  ⟨h1.1.trans h2.1, h1.2.1.trans h2.2.1, h1.2.2.trans h2.2.2⟩

/-! ### Guarantee predicates for the abstracted collaborators -/

/-- A `getByte`-shaped function respects `resRelS`. -/
def SGet {n : Nat} (get : CacheNode → Chain n → Mem → Nat → Nat × OpResult n) : Prop :=
  ∀ c rest m a, resRelS c rest (get c rest m a).2

/-- A `setByte`-shaped function respects `resRelS`. -/
def SSet {n : Nat} (set : CacheNode → Chain n → Mem → Nat → Nat → OpResult n) : Prop :=
  ∀ c rest m a v, resRelS c rest (set c rest m a v)

/-- A `loadBlockFromLowerLevel`-shaped function respects `resRelS`. -/
def SLoad {n : Nat} (load : CacheNode → Chain n → Mem → Nat → Bool → OpResult n) : Prop :=
  ∀ c rest m a ir, resRelS c rest (load c rest m a ir)

/-- A `writeBlockToLowerLevel`-shaped function respects `resRelS`. -/
def SWrite {n : Nat} (wb : CacheNode → Chain n → Mem → Block → OpResult n) : Prop :=
  ∀ c rest m b, resRelS c rest (wb c rest m b)

/-- An evict-and-install function respects `resRelS`, provided the new
block's structural id matches the slot it is installed into. -/
def SEvict {n : Nat}
    (ev : CacheNode → Chain n → Mem → Nat → Block → Block → OpResult n) : Prop :=
  ∀ c rest m i rb nb,
    (0 < c.self.policy.associativity → nb.id = i / c.self.policy.associativity) →
    resRelS c rest (ev c rest m i rb nb)

/-- A `loadViaLower`-shaped function respects `resRelS` under the same
install condition. -/
def SLoadVia {n : Nat}
    (lv : CacheNode → Chain n → Mem → Nat → Bool → Block → Nat → Block → OpResult n) :
    Prop :=
  ∀ c rest m bab ir nb i rb,
    (0 < c.self.policy.associativity → nb.id = i / c.self.policy.associativity) →
    resRelS c rest (lv c rest m bab ir nb i rb)

/-- All three chain-level operations respect `ChainRelS`. -/
def SChain {n : Nat} (low : ChainOps n) : Prop :=
  (∀ ch m a, ChainRelS ch (low.get ch m a).2.1)
    ∧ (∀ ch m a v, ChainRelS ch (low.set ch m a v).1)
    ∧ (∀ ch m a ir, ChainRelS ch (low.load ch m a ir).1)

def ChainRelS.refl : ∀ {n : Nat} (ch : Chain n), ChainRelS ch ch
  | _, .nil => .nil
  | _, .cons c r => .cons (stRelHead.refl _) rfl (optStRel.refl _) (ChainRel.refl r)

def ChainRelS.trans : ∀ {n : Nat} {a b c : Chain n},
    ChainRelS a b → ChainRelS b c → ChainRelS a c
  | _, _, _, _, .nil, .nil => .nil
  | _, _, _, _, .cons s1 e1 v1 r1, .cons s2 e2 v2 r2 =>
    .cons (s1.trans s2) (e2.trans e1) (v1.trans v2) (ChainRel.trans r1 r2)

/-! ### Small state-update lemmas -/

/-- `stRelHead` for any update that keeps policy, FIFO flag, the four
counters and every slot's id. -/
theorem stRelHead.ofParts {s s' : CacheState} (hp : s'.policy = s.policy)
    (hf : s'.enableFifo = s.enableFifo) (hs : fourEq s.statistics s'.statistics)
    (hb : ∀ i, (s'.blocks i).id = (s.blocks i).id) : stRelHead s s' := by
  refine ⟨hp, hf, hs, fun _ hi i => ?_⟩
  rw [hb i, hp]; exact hi i

/-- Installing a block whose id matches its slot preserves `stRelHead`. -/
def stRelHead.install {s s' : CacheState} (h : stRelHead s s') (i : Nat) (nb : Block)
    (hid : 0 < s.policy.associativity → nb.id = i / s.policy.associativity) :
    stRelHead s { s' with blocks := updBlocks s'.blocks i nb } := by
  obtain ⟨hp, hf, hs, hinv⟩ := h
  refine ⟨hp, hf, hs, fun ha hi j => ?_⟩
  simp only [updBlocks]
  by_cases hj : j = i
  · subst hj; rw [hp]; simp [hid ha]
  · simp only [hj, if_false]; exact hinv ha hi j

/-- Charging cycles preserves `stRelHead`. -/
theorem stRelHead.addCycles {s s' : CacheState} (h : stRelHead s s') (k : Nat) :
    stRelHead s { s' with statistics.totalCycles := s'.statistics.totalCycles + k } := by
  obtain ⟨hp, hf, ⟨e1, e2, e3, e4⟩, hinv⟩ := h
  exact ⟨hp, hf, ⟨e1, e2, e3, e4⟩, hinv⟩

/-- `setInvalid` only clears a valid bit: `stRelHead` holds. -/
theorem stRelHead.setInvalid (s : CacheState) (a : Nat) :
    stRelHead s (s.setInvalid a) := by
  unfold CacheState.setInvalid
  cases s.getBlockId a with
  | none => exact stRelHead.refl s
  | some i =>
    refine stRelHead.ofParts rfl rfl (fourEq.refl _) (fun j => ?_)
    by_cases hj : j = i <;> simp [hj]

/-- The victim accounting of a load (one read or write, then one hit or
one miss) balances the victim's counters. -/
theorem statDeltaOk.rwThenHit (s : Statistics) (isRead : Bool) (cy : Nat) :
    statDeltaOk s (Statistics.addHit
      (if isRead then s.addRead else s.addWrite) cy) := by
  cases isRead <;>
    simp [Statistics.addRead, Statistics.addWrite, Statistics.addHit, statDeltaOk] <;>
    omega

/-- Same with a miss. -/
theorem statDeltaOk.rwThenMiss (s : Statistics) (isRead : Bool) (cy : Nat) :
    statDeltaOk s (Statistics.addMiss
      (if isRead then s.addRead else s.addWrite) cy) := by
  cases isRead <;>
    simp [Statistics.addRead, Statistics.addWrite, Statistics.addMiss, statDeltaOk] <;>
    omega

/-! ### Loop lemmas -/

theorem copyToLoop_rel {n : Nat}
    {set : CacheNode → Chain n → Mem → Nat → Nat → OpResult n} (hs : SSet set) :
    ∀ (k : Nat) (c : CacheNode) (rest : Chain n) (m : Mem) (b i : Nat) (d : Nat → Nat),
      resRelS c rest (copyToLoop set k c rest m b i d)
  | 0, c, rest, m, _, _, _ => resRelS.refl c rest m
  | k + 1, c, rest, m, b, i, d =>
    resRelS.trans c.enableVictimCache (hs c rest m (b + i) (d i))
      (copyToLoop_rel hs k _ _ _ b (i + 1) d)

theorem copyFromLoop_rel {n : Nat}
    {get : CacheNode → Chain n → Mem → Nat → Nat × OpResult n} (hg : SGet get) :
    ∀ (k : Nat) (c : CacheNode) (rest : Chain n) (m : Mem) (b i : Nat) (d : Nat → Nat),
      resRelS c rest (copyFromLoop get k c rest m b i d).2
  | 0, c, rest, m, _, _, _ => resRelS.refl c rest m
  | k + 1, c, rest, m, b, i, d =>
    resRelS.trans c.enableVictimCache (hg c rest m (b + i))
      (copyFromLoop_rel hg k _ _ _ b (i + 1) _)

theorem copyToChainLoop_rel {n : Nat}
    {set : Chain n → Mem → Nat → Nat → Chain n × Mem}
    (hs : ∀ ch m a v, ChainRelS ch (set ch m a v).1) :
    ∀ (k : Nat) (ch : Chain n) (m : Mem) (b i : Nat) (d : Nat → Nat),
      ChainRelS ch (copyToChainLoop set k ch m b i d).1
  | 0, ch, _, _, _, _ => ChainRelS.refl ch
  | k + 1, ch, m, b, i, d =>
    ChainRelS.trans (hs ch m (b + i) (d i)) (copyToChainLoop_rel hs k _ _ b (i + 1) d)

theorem copyFromChainLoop_rel {n : Nat}
    {get : Chain n → Mem → Nat → Nat × Chain n × Mem}
    (hg : ∀ ch m a, ChainRelS ch (get ch m a).2.1) :
    ∀ (k : Nat) (ch : Chain n) (m : Mem) (b i : Nat) (d : Nat → Nat),
      ChainRelS ch (copyFromChainLoop get k ch m b i d).2.1
  | 0, ch, _, _, _, _ => ChainRelS.refl ch
  | k + 1, ch, m, b, i, d =>
    ChainRelS.trans (hg ch m (b + i)) (copyFromChainLoop_rel hg k _ _ b (i + 1) _)

/-! ### The replacement slot stays inside its set -/

/-- A fold whose step either keeps the accumulator or picks the current
list element returns its initial candidate or a list member. -/
theorem foldl_pick_mem {g : Nat × Nat → Nat → Nat × Nat}
    (hg : ∀ a i, g a i = a ∨ (g a i).1 = i) :
    ∀ (l : List Nat) (a : Nat × Nat),
      (l.foldl g a).1 = a.1 ∨ (l.foldl g a).1 ∈ l
  | [], _ => Or.inl rfl
  | x :: xs, a => by
    simp only [List.foldl_cons]
    rcases foldl_pick_mem hg xs (g a x) with h | h
    · rcases hg a x with h2 | h2
      · exact Or.inl (h.trans (congrArg Prod.fst h2))
      · exact Or.inr (by rw [h.trans h2]; exact List.mem_cons_self x xs)
    · exact Or.inr (List.mem_cons_of_mem x h)

/-- `Cache::getReplacementBlockId` over a non-empty slot range stays in
the range. -/
theorem getReplacementBlockId_mem (c : CacheState) (b e : Nat) (h : b < e) :
    b ≤ c.getReplacementBlockId b e ∧ c.getReplacementBlockId b e < e := by
  unfold CacheState.getReplacementBlockId
  cases hfind : (List.range' b (e - b)).find? (fun i => !(c.blocks i).valid) with
  | some i =>
    dsimp only
    have hmem := List.mem_of_find?_eq_some hfind
    rw [List.mem_range'_1] at hmem
    omega
  | none =>
    dsimp only
    split
    · have hpick := @foldl_pick_mem
        (fun acc i => if (c.blocks i).createdAt < acc.2 then (i, (c.blocks i).createdAt) else acc)
        (fun a i => by by_cases hx : (c.blocks i).createdAt < a.2 <;> simp [hx])
        (List.range' (b + 1) (e - (b + 1))) (b, (c.blocks b).createdAt)
      rcases hpick with heq | hmem
      · omega
      · rw [List.mem_range'_1] at hmem; omega
    · have hpick := @foldl_pick_mem
        (fun acc i => if (c.blocks i).lastReference < acc.2 then (i, (c.blocks i).lastReference) else acc)
        (fun a i => by by_cases hx : (c.blocks i).lastReference < a.2 <;> simp [hx])
        (List.range' b (e - b)) (b, (c.blocks b).lastReference)
      rcases hpick with heq | hmem
      · omega
      · rw [List.mem_range'_1] at hmem; omega

/-- The replacement slot of the set of `idx` has structural set id
`idx`. -/
theorem getReplacementBlockId_div (c : CacheState) (idx : Nat)
    (h : 0 < c.policy.associativity) :
    c.getReplacementBlockId (idx * c.policy.associativity)
      ((idx + 1) * c.policy.associativity) / c.policy.associativity = idx := by
  have h1 : (idx + 1) * c.policy.associativity
      = idx * c.policy.associativity + c.policy.associativity := by ring
  have hb : idx * c.policy.associativity < (idx + 1) * c.policy.associativity := by omega
  have hm := getReplacementBlockId_mem c (idx * c.policy.associativity)
    ((idx + 1) * c.policy.associativity) hb
  exact Nat.div_eq_of_lt_le hm.1 hm.2

/-! ### Builder lemmas -/

/-- Compose a relation over a changed chain. -/
theorem resRelS.withChain {n : Nat} {c : CacheNode} {rest rest' : Chain n}
    {r : OpResult n} (h : resRelS c rest' r) (hc : ChainRel rest rest') :
    resRelS c rest r :=
  ⟨h.1, h.2.1, hc.trans h.2.2⟩

/-- Installing on top of a related result. -/
def resRelS.install {n : Nat} {c : CacheNode} {rest : Chain n} {r : OpResult n}
    (h : resRelS c rest r) (i : Nat) (nb : Block)
    (hid : 0 < c.self.policy.associativity → nb.id = i / c.self.policy.associativity) :
    resRelS c rest { r with self := { r.self with blocks := updBlocks r.self.blocks i nb } } :=
  ⟨h.1.install i nb hid, h.2.1, h.2.2⟩

theorem mkWriteBlock_rel {n : Nat}
    {vicSet : CacheNode → Chain n → Mem → Nat → Nat → OpResult n}
    {low : ChainOps n} (hv : SSet vicSet)
    (hl : ∀ ch m a v, ChainRelS ch (low.set ch m a v).1) :
    SWrite (mkWriteBlock vicSet low) := by
  intro c rest m b
  unfold mkWriteBlock
  split
  · rename_i v heq1 heq2
    have hloop := copyToLoop_rel hv b.size (⟨v, false, none⟩ : CacheNode) rest m
      (c.self.getAddr b) 0 b.data
    exact ⟨stRelHead.refl _, by rw [heq2]; exact hloop.1.toRel, hloop.2.2⟩
  · split
    · rename_i c2 rest2 vicSet2 low2
      have hloop := (copyToChainLoop_rel hl b.size (.cons c2 rest2) m
        (c.self.getAddr b) 0 b.data).toRel
      exact ⟨stRelHead.refl _, optStRel.refl _, hloop⟩
    · exact ⟨stRelHead.refl _, optStRel.refl _, ChainRel.nil⟩

theorem mkEvictInstall_rel {n : Nat}
    {wb : CacheNode → Chain n → Mem → Block → OpResult n}
    {vicSet : CacheNode → Chain n → Mem → Nat → Nat → OpResult n}
    (hw : SWrite wb) (hv : SSet vicSet) :
    SEvict (mkEvictInstall wb vicSet) := by
  intro c rest m i rb nb hid
  unfold mkEvictInstall
  refine resRelS.install ?_ i nb hid
  split
  · split
    · have hwr := hw c rest m rb
      exact ⟨hwr.1.addCycles _, hwr.2.1, hwr.2.2⟩
    · split
      · rename_i v heq1 heq2
        have hloop := copyToLoop_rel hv rb.size (⟨v, false, none⟩ : CacheNode) rest m
          (c.self.getAddr rb) 0 rb.data
        exact ⟨stRelHead.refl _, by rw [heq2]; exact hloop.1.toRel, hloop.2.2⟩
      · exact resRelS.refl c rest m
  · exact resRelS.refl c rest m

/-- A pure-statistics update with a balanced delta is an `stRel`. -/
theorem stRel.statsOnly {s : CacheState} {st : Statistics}
    (h : statDeltaOk s.statistics st) : stRel s { s with statistics := st } :=
  ⟨rfl, rfl, h, fun _ hi => hi⟩

theorem mkLoadVia_rel {n : Nat} {low : ChainOps n}
    {evict : CacheNode → Chain n → Mem → Nat → Block → Block → OpResult n}
    (hlow : SChain low) (he : SEvict evict) :
    SLoadVia (mkLoadVia low evict) := by
  intro c rest m bab ir nb i rb hid
  unfold mkLoadVia
  cases rest with
  | nil =>
    dsimp only
    exact he c .nil m i rb _ hid
  | cons c2 rest2 =>
    dsimp only
    split <;> rename_i hir <;> split <;> rename_i hin <;>
      refine resRelS.withChain (he c _ _ i rb _ hid) ?_
    case isTrue.isTrue =>
      let ch1 : Chain _ := .cons ({ c2 with self.statistics := c2.self.statistics.addRead.addHit c2.self.policy.hitLatency }) rest2
      have hch1 : ChainRel (.cons c2 rest2) ch1 :=
        .cons (stRel.statsOnly (statDeltaOk.rwThenHit _ true _)) rfl (optStRel.refl _)
          (ChainRel.refl _)
      exact hch1.trans
        (copyFromChainLoop_rel hlow.1 c.self.policy.blockSize ch1 m bab 0 nb.data).toRel
    case isTrue.isFalse =>
      let ch1 : Chain _ := .cons ({ c2 with self.statistics := c2.self.statistics.addRead.addMiss c2.self.policy.missLatency }) rest2
      have hch1 : ChainRel (.cons c2 rest2) ch1 :=
        .cons (stRel.statsOnly (statDeltaOk.rwThenMiss _ true _)) rfl (optStRel.refl _)
          (ChainRel.refl _)
      have hload := (hlow.2.2 ch1 m bab ir).toRel
      exact (hch1.trans hload).trans
        (copyFromChainLoop_rel hlow.1 c.self.policy.blockSize (low.load ch1 m bab ir).1
          (low.load ch1 m bab ir).2 bab 0 nb.data).toRel
    case isFalse.isTrue =>
      let ch1 : Chain _ := .cons ({ c2 with self.statistics := c2.self.statistics.addWrite.addHit c2.self.policy.hitLatency }) rest2
      have hch1 : ChainRel (.cons c2 rest2) ch1 :=
        .cons (stRel.statsOnly (statDeltaOk.rwThenHit _ false _)) rfl (optStRel.refl _)
          (ChainRel.refl _)
      exact hch1.trans
        (copyFromChainLoop_rel hlow.1 c.self.policy.blockSize ch1 m bab 0 nb.data).toRel
    case isFalse.isFalse =>
      let ch1 : Chain _ := .cons ({ c2 with self.statistics := c2.self.statistics.addWrite.addMiss c2.self.policy.missLatency }) rest2
      have hch1 : ChainRel (.cons c2 rest2) ch1 :=
        .cons (stRel.statsOnly (statDeltaOk.rwThenMiss _ false _)) rfl (optStRel.refl _)
          (ChainRel.refl _)
      have hload := (hlow.2.2 ch1 m bab ir).toRel
      exact (hch1.trans hload).trans
        (copyFromChainLoop_rel hlow.1 c.self.policy.blockSize (low.load ch1 m bab ir).1
          (low.load ch1 m bab ir).2 bab 0 nb.data).toRel

/-- `stRel` gives `optStRel` on `some`. -/
theorem optStRel.ofSome {a b : CacheState} (h : stRel a b) : optStRel (some a) (some b) := h

theorem mkLoad_rel {n : Nat}
    {vicGet : CacheNode → Chain n → Mem → Nat → Nat × OpResult n}
    {evict : CacheNode → Chain n → Mem → Nat → Block → Block → OpResult n}
    {loadVia : CacheNode → Chain n → Mem → Nat → Bool → Block → Nat → Block → OpResult n}
    (hg : SGet vicGet) (he : SEvict evict) (hlv : SLoadVia loadVia) :
    SLoad (mkLoad vicGet evict loadVia) := by
  intro c rest m addr ir
  have hid2 : ∀ rc1 : Nat → Nat, 0 < c.self.policy.associativity →
      (Block.id { valid := true, modified := false, tag := c.self.getTag addr
                  id := c.self.getId addr, size := c.self.policy.blockSize
                  lastReference := c.self.referenceCounter
                  createdAt := c.self.referenceCounter, data := rc1 })
        = c.self.getReplacementBlockId (c.self.getId addr * c.self.policy.associativity)
            ((c.self.getId addr + 1) * c.self.policy.associativity)
          / c.self.policy.associativity :=
    fun _ ha => (getReplacementBlockId_div c.self (c.self.getId addr) ha).symm
  unfold mkLoad
  dsimp only
  split
  · rename_i v heq1 heq2
    split <;> rename_i hin <;> split <;> rename_i hvin
    case isTrue.isTrue =>
      have hev := he ⟨c.self, c.enableVictimCache, some
          ((copyFromLoop vicGet c.self.policy.blockSize
              ⟨{ v with statistics := v.statistics.addRead.addHit v.policy.hitLatency },
                false, none⟩ rest m
              (addr &&& 2 ^ 32 - 2 ^ log2i c.self.policy.blockSize) 0 fun _ => 0).2.self.setInvalid
            (addr &&& 2 ^ 32 - 2 ^ log2i c.self.policy.blockSize))⟩
        (copyFromLoop vicGet c.self.policy.blockSize
          ⟨{ v with statistics := v.statistics.addRead.addHit v.policy.hitLatency },
            false, none⟩ rest m
          (addr &&& 2 ^ 32 - 2 ^ log2i c.self.policy.blockSize) 0 fun _ => 0).2.rest
        (copyFromLoop vicGet c.self.policy.blockSize
          ⟨{ v with statistics := v.statistics.addRead.addHit v.policy.hitLatency },
            false, none⟩ rest m
          (addr &&& 2 ^ 32 - 2 ^ log2i c.self.policy.blockSize) 0 fun _ => 0).2.mem
        (c.self.getReplacementBlockId (c.self.getId addr * c.self.policy.associativity)
          ((c.self.getId addr + 1) * c.self.policy.associativity))
        (c.self.blocks
          (c.self.getReplacementBlockId (c.self.getId addr * c.self.policy.associativity)
            ((c.self.getId addr + 1) * c.self.policy.associativity)))
        { valid := true, modified := false, tag := c.self.getTag addr
          id := c.self.getId addr, size := c.self.policy.blockSize
          lastReference := c.self.referenceCounter, createdAt := c.self.referenceCounter
          data := (copyFromLoop vicGet c.self.policy.blockSize
            ⟨{ v with statistics := v.statistics.addRead.addHit v.policy.hitLatency },
              false, none⟩ rest m
            (addr &&& 2 ^ 32 - 2 ^ log2i c.self.policy.blockSize) 0 fun _ => 0).1 }
        (hid2 _)
      have hloop := copyFromLoop_rel hg c.self.policy.blockSize
        ⟨{ v with statistics := v.statistics.addRead.addHit v.policy.hitLatency },
          false, none⟩ rest m
        (addr &&& 2 ^ 32 - 2 ^ log2i c.self.policy.blockSize) 0 (fun _ => 0)
      have hvv3 : stRel v
          ((copyFromLoop vicGet c.self.policy.blockSize
              ⟨{ v with statistics := v.statistics.addRead.addHit v.policy.hitLatency },
                false, none⟩ rest m
              (addr &&& 2 ^ 32 - 2 ^ log2i c.self.policy.blockSize) 0 fun _ => 0).2.self.setInvalid
            (addr &&& 2 ^ 32 - 2 ^ log2i c.self.policy.blockSize)) :=
        (stRel.statsOnly (statDeltaOk.rwThenHit v.statistics true v.policy.hitLatency)).trans
          (hloop.1.toRel.trans (stRelHead.setInvalid _ _).toRel)
      refine ⟨hev.1, ?_, hloop.2.2.trans hev.2.2⟩
      rw [heq2]
      exact optStRel.trans (optStRel.ofSome hvv3) hev.2.1
    case isTrue.isFalse =>
      have h := hlv ⟨c.self, c.enableVictimCache, some
          { v with statistics := v.statistics.addRead.addMiss v.policy.missLatency }⟩
        rest m (addr &&& 2 ^ 32 - 2 ^ log2i c.self.policy.blockSize) ir
        { valid := true, modified := false, tag := c.self.getTag addr
          id := c.self.getId addr, size := c.self.policy.blockSize
          lastReference := c.self.referenceCounter, createdAt := c.self.referenceCounter
          data := fun _ => 0 }
        (c.self.getReplacementBlockId (c.self.getId addr * c.self.policy.associativity)
          ((c.self.getId addr + 1) * c.self.policy.associativity))
        (c.self.blocks
          (c.self.getReplacementBlockId (c.self.getId addr * c.self.policy.associativity)
            ((c.self.getId addr + 1) * c.self.policy.associativity)))
        (hid2 _)
      refine ⟨h.1, ?_, h.2.2⟩
      rw [heq2]
      exact optStRel.trans (optStRel.ofSome
        (stRel.statsOnly (statDeltaOk.rwThenMiss v.statistics true v.policy.missLatency))) h.2.1
    case isFalse.isTrue =>
      have hev := he ⟨c.self, c.enableVictimCache, some
          ((copyFromLoop vicGet c.self.policy.blockSize
              ⟨{ v with statistics := v.statistics.addWrite.addHit v.policy.hitLatency },
                false, none⟩ rest m
              (addr &&& 2 ^ 32 - 2 ^ log2i c.self.policy.blockSize) 0 fun _ => 0).2.self.setInvalid
            (addr &&& 2 ^ 32 - 2 ^ log2i c.self.policy.blockSize))⟩
        (copyFromLoop vicGet c.self.policy.blockSize
          ⟨{ v with statistics := v.statistics.addWrite.addHit v.policy.hitLatency },
            false, none⟩ rest m
          (addr &&& 2 ^ 32 - 2 ^ log2i c.self.policy.blockSize) 0 fun _ => 0).2.rest
        (copyFromLoop vicGet c.self.policy.blockSize
          ⟨{ v with statistics := v.statistics.addWrite.addHit v.policy.hitLatency },
            false, none⟩ rest m
          (addr &&& 2 ^ 32 - 2 ^ log2i c.self.policy.blockSize) 0 fun _ => 0).2.mem
        (c.self.getReplacementBlockId (c.self.getId addr * c.self.policy.associativity)
          ((c.self.getId addr + 1) * c.self.policy.associativity))
        (c.self.blocks
          (c.self.getReplacementBlockId (c.self.getId addr * c.self.policy.associativity)
            ((c.self.getId addr + 1) * c.self.policy.associativity)))
        { valid := true, modified := false, tag := c.self.getTag addr
          id := c.self.getId addr, size := c.self.policy.blockSize
          lastReference := c.self.referenceCounter, createdAt := c.self.referenceCounter
          data := (copyFromLoop vicGet c.self.policy.blockSize
            ⟨{ v with statistics := v.statistics.addWrite.addHit v.policy.hitLatency },
              false, none⟩ rest m
            (addr &&& 2 ^ 32 - 2 ^ log2i c.self.policy.blockSize) 0 fun _ => 0).1 }
        (hid2 _)
      have hloop := copyFromLoop_rel hg c.self.policy.blockSize
        ⟨{ v with statistics := v.statistics.addWrite.addHit v.policy.hitLatency },
          false, none⟩ rest m
        (addr &&& 2 ^ 32 - 2 ^ log2i c.self.policy.blockSize) 0 (fun _ => 0)
      have hvv3 : stRel v
          ((copyFromLoop vicGet c.self.policy.blockSize
              ⟨{ v with statistics := v.statistics.addWrite.addHit v.policy.hitLatency },
                false, none⟩ rest m
              (addr &&& 2 ^ 32 - 2 ^ log2i c.self.policy.blockSize) 0 fun _ => 0).2.self.setInvalid
            (addr &&& 2 ^ 32 - 2 ^ log2i c.self.policy.blockSize)) :=
        (stRel.statsOnly (statDeltaOk.rwThenHit v.statistics false v.policy.hitLatency)).trans
          (hloop.1.toRel.trans (stRelHead.setInvalid _ _).toRel)
      refine ⟨hev.1, ?_, hloop.2.2.trans hev.2.2⟩
      rw [heq2]
      exact optStRel.trans (optStRel.ofSome hvv3) hev.2.1
    case isFalse.isFalse =>
      have h := hlv ⟨c.self, c.enableVictimCache, some
          { v with statistics := v.statistics.addWrite.addMiss v.policy.missLatency }⟩
        rest m (addr &&& 2 ^ 32 - 2 ^ log2i c.self.policy.blockSize) ir
        { valid := true, modified := false, tag := c.self.getTag addr
          id := c.self.getId addr, size := c.self.policy.blockSize
          lastReference := c.self.referenceCounter, createdAt := c.self.referenceCounter
          data := fun _ => 0 }
        (c.self.getReplacementBlockId (c.self.getId addr * c.self.policy.associativity)
          ((c.self.getId addr + 1) * c.self.policy.associativity))
        (c.self.blocks
          (c.self.getReplacementBlockId (c.self.getId addr * c.self.policy.associativity)
            ((c.self.getId addr + 1) * c.self.policy.associativity)))
        (hid2 _)
      refine ⟨h.1, ?_, h.2.2⟩
      rw [heq2]
      exact optStRel.trans (optStRel.ofSome
        (stRel.statsOnly (statDeltaOk.rwThenMiss v.statistics false v.policy.missLatency))) h.2.1
  · rename_i e1 e2 hne
    refine hlv c rest m _ ir _ _ _ (fun ha => ?_)
    exact (getReplacementBlockId_div c.self (c.self.getId addr) ha).symm

/-- Replacing one slot with a block of the same structural id keeps
`stRelHead`. -/
theorem stRelHead.updKeepId {s s' : CacheState} (h : stRelHead s s') (j : Nat)
    (nb : Block) (hnb : nb.id = (Block.id (s'.blocks j))) :
    stRelHead s { s' with blocks := updBlocks s'.blocks j nb } := by
  refine ⟨h.1, h.2.1, h.2.2.1, fun ha hi i => ?_⟩
  have hinv' := h.2.2.2 ha hi
  simp only [updBlocks]
  by_cases hij : i = j
  · subst hij; rw [if_pos rfl, hnb]; exact hinv' i
  · rw [if_neg hij]; exact hinv' i

/-- Bumping the reference counter alone keeps `stRelHead`. -/
theorem stRelHead.bumpRef (s : CacheState) :
    stRelHead s { s with referenceCounter := s.referenceCounter + 1 } :=
  ⟨rfl, rfl, fourEq.refl _, fun _ hi => hi⟩

theorem mkGetByte_rel {n : Nat}
    {load : CacheNode → Chain n → Mem → Nat → Bool → OpResult n} (hl : SLoad load) :
    SGet (mkGetByte load) := by
  intro c rest m a
  unfold mkGetByte
  dsimp only
  split
  · rename_i blockId heq
    exact ⟨(stRelHead.bumpRef c.self).updKeepId blockId _ rfl, optStRel.refl _,
      ChainRel.refl _⟩
  · rename_i heq
    have h := hl ⟨{ c.self with referenceCounter := c.self.referenceCounter + 1 },
      c.enableVictimCache, c.victim⟩ rest m a true
    split
    · rename_i blockId heq2
      exact ⟨((stRelHead.bumpRef c.self).trans h.1).updKeepId blockId _ rfl, h.2.1, h.2.2⟩
    · exact ⟨(stRelHead.bumpRef c.self).trans h.1, h.2.1, h.2.2⟩

theorem mkSetByte_rel {n : Nat}
    {load : CacheNode → Chain n → Mem → Nat → Bool → OpResult n} (hl : SLoad load) :
    SSet (mkSetByte load) := by
  intro c rest m a v
  unfold mkSetByte
  dsimp only
  split
  · rename_i blockId heq
    exact ⟨(stRelHead.bumpRef c.self).updKeepId blockId _ rfl, optStRel.refl _,
      ChainRel.refl _⟩
  · rename_i heq
    have h := hl ⟨{ c.self with referenceCounter := c.self.referenceCounter + 1 },
      c.enableVictimCache, c.victim⟩ rest m a false
    split
    · rename_i blockId heq2
      exact ⟨((stRelHead.bumpRef c.self).trans h.1).updKeepId blockId _ rfl, h.2.1, h.2.2⟩
    · exact ⟨(stRelHead.bumpRef c.self).trans h.1, h.2.1, h.2.2⟩

/-- The dead victim placeholders trivially respect the relations. -/
theorem deadVicGet_rel {n : Nat} : SGet (@deadVicGet n) :=
  fun c rest m _ => resRelS.refl c rest m

theorem deadVicSet_rel {n : Nat} : SSet (@deadVicSet n) :=
  fun c rest m _ _ => resRelS.refl c rest m

/-- All three per-level operations built over a well-behaved lower chain
are well-behaved. -/
theorem mkNodeOps_rel {n : Nat} {low : ChainOps n} (hlow : SChain low) :
    SGet (mkNodeOps low).get ∧ SSet (mkNodeOps low).set ∧ SLoad (mkNodeOps low).load := by
  have hbw : SWrite (mkWriteBlock deadVicSet low) :=
    mkWriteBlock_rel deadVicSet_rel hlow.2.1
  have hbe : SEvict (mkEvictInstall (mkWriteBlock deadVicSet low) deadVicSet) :=
    mkEvictInstall_rel hbw deadVicSet_rel
  have hblv := mkLoadVia_rel hlow hbe
  have hbl := mkLoad_rel deadVicGet_rel hbe hblv
  have hbg := mkGetByte_rel hbl
  have hbs := mkSetByte_rel hbl
  have hw := mkWriteBlock_rel hbs hlow.2.1
  have hev := mkEvictInstall_rel hw hbs
  have hlv2 := mkLoadVia_rel hlow hev
  have hload := mkLoad_rel hbg hev hlv2
  exact ⟨mkGetByte_rel hload, mkSetByte_rel hload, hload⟩

/-- Lifting a well-behaved node to chain operations preserves the chain
relation, without touching the head's counters. -/
theorem liftNode_rel {n : Nat} {no : NodeOps n}
    (h : SGet no.get ∧ SSet no.set ∧ SLoad no.load) : SChain (liftNode no) := by
  refine ⟨fun ch m a => ?_, fun ch m a v => ?_, fun ch m a ir => ?_⟩
  · cases ch with
    | cons c2 rest2 =>
      have hg := h.1 c2 rest2 m a
      exact .cons hg.1 rfl hg.2.1 hg.2.2
  · cases ch with
    | cons c2 rest2 =>
      have hs := h.2.1 c2 rest2 m a v
      exact .cons hs.1 rfl hs.2.1 hs.2.2
  · cases ch with
    | cons c2 rest2 =>
      have hl := h.2.2 c2 rest2 m a ir
      exact .cons hl.1 rfl hl.2.1 hl.2.2

/-- The whole chain of levels is well-behaved, by induction on depth. -/
theorem chainOps_rel : ∀ n : Nat, SChain (chainOps n)
  | 0 => ⟨fun ch _ _ => ChainRelS.refl ch, fun ch _ _ _ => ChainRelS.refl ch,
      fun ch _ _ _ => ChainRelS.refl ch⟩
  | n + 1 => liftNode_rel (mkNodeOps_rel (chainOps_rel n))

/-- `Cache::getByte` preserves configuration, balances counters below and
keeps the id invariant everywhere. -/
theorem cacheGetByte_rel {n : Nat} (c : CacheNode) (rest : Chain n) (m : Mem)
    (addr : Nat) : resRelS c rest (cacheGetByte c rest m addr).2 :=
  (mkNodeOps_rel (chainOps_rel n)).1 c rest m addr

/-- Likewise for `Cache::setByte`. -/
theorem cacheSetByte_rel {n : Nat} (c : CacheNode) (rest : Chain n) (m : Mem)
    (addr v : Nat) : resRelS c rest (cacheSetByte c rest m addr v) :=
  (mkNodeOps_rel (chainOps_rel n)).2.1 c rest m addr v

/-- Likewise for `Cache::loadBlockFromLowerLevel`. -/
theorem loadBlockFromLowerLevel_rel {n : Nat} (c : CacheNode) (rest : Chain n)
    (m : Mem) (addr : Nat) (ir : Bool) :
    resRelS c rest (loadBlockFromLowerLevel c rest m addr ir) :=
  (mkNodeOps_rel (chainOps_rel n)).2.2 c rest m addr ir

/-! ### Top-level operation relations -/

/-- `Cache::fetch` respects `resRelS` (in particular it moves none of the
four counters at its own level). -/
theorem cacheFetch_rel {n : Nat} (c : CacheNode) (rest : Chain n) (m : Mem)
    (addr : Nat) : resRelS c rest (cacheFetch c rest m addr) := by
  unfold cacheFetch
  split
  · exact resRelS.refl c rest m
  · exact loadBlockFromLowerLevel_rel c rest m addr true

/-- `Cache::read`: one read and one hit-or-miss at this level, balanced
deltas below. -/
theorem cacheRead_rel {n : Nat} (c : CacheNode) (rest : Chain n) (m : Mem)
    (addr : Nat) :
    stRel c.self ((cacheRead c rest m addr).2).self
      ∧ optStRel c.victim ((cacheRead c rest m addr).2).victim
      ∧ ChainRel rest ((cacheRead c rest m addr).2).rest := by
  unfold cacheRead
  dsimp only
  split <;> rename_i hin
  · have h := cacheGetByte_rel ⟨{ c.self with
      statistics := c.self.statistics.addRead.addHit c.self.policy.hitLatency },
      c.enableVictimCache, c.victim⟩ rest m addr
    exact ⟨(stRel.statsOnly (statDeltaOk.rwThenHit c.self.statistics true
      c.self.policy.hitLatency)).trans h.1.toRel, h.2.1, h.2.2⟩
  · have h := cacheGetByte_rel ⟨{ c.self with
      statistics := c.self.statistics.addRead.addMiss c.self.policy.missLatency },
      c.enableVictimCache, c.victim⟩ rest m addr
    exact ⟨(stRel.statsOnly (statDeltaOk.rwThenMiss c.self.statistics true
      c.self.policy.missLatency)).trans h.1.toRel, h.2.1, h.2.2⟩

/-- `Cache::write`: one write and one hit-or-miss at this level, balanced
deltas below. -/
theorem cacheWrite_rel {n : Nat} (c : CacheNode) (rest : Chain n) (m : Mem)
    (addr v : Nat) :
    stRel c.self (cacheWrite c rest m addr v).self
      ∧ optStRel c.victim (cacheWrite c rest m addr v).victim
      ∧ ChainRel rest (cacheWrite c rest m addr v).rest := by
  unfold cacheWrite
  dsimp only
  split <;> rename_i hin
  · have h := cacheSetByte_rel ⟨{ c.self with
      statistics := c.self.statistics.addWrite.addHit c.self.policy.hitLatency },
      c.enableVictimCache, c.victim⟩ rest m addr v
    exact ⟨(stRel.statsOnly (statDeltaOk.rwThenHit c.self.statistics false
      c.self.policy.hitLatency)).trans h.1.toRel, h.2.1, h.2.2⟩
  · have h := cacheSetByte_rel ⟨{ c.self with
      statistics := c.self.statistics.addWrite.addMiss c.self.policy.missLatency },
      c.enableVictimCache, c.victim⟩ rest m addr v
    exact ⟨(stRel.statsOnly (statDeltaOk.rwThenMiss c.self.statistics false
      c.self.policy.missLatency)).trans h.1.toRel, h.2.1, h.2.2⟩

/-! ### Hierarchy-level relation -/

/-- What a whole `processMemoryAccess` guarantees for the cache part of
the hierarchy. -/
def hierRel {n : Nat} (a b : Hierarchy n) : Prop :=
  stRel a.l1.self b.l1.self ∧ b.l1.enableVictimCache = a.l1.enableVictimCache
    ∧ optStRel a.l1.victim b.l1.victim ∧ ChainRel a.lower b.lower

def hierRel.refl {n : Nat} (h : Hierarchy n) : hierRel h h :=
  ⟨stRel.refl _, rfl, optStRel.refl _, ChainRel.refl _⟩

def hierRel.trans {n : Nat} {a b c : Hierarchy n} (h1 : hierRel a b)
    (h2 : hierRel b c) : hierRel a c :=
  ⟨h1.1.trans h2.1, h2.2.1.trans h1.2.1, h1.2.2.1.trans h2.2.2.1,
    h1.2.2.2.trans h2.2.2.2⟩

/-- A hierarchy update that only touches memory, flags or the prefetcher
state is `hierRel`-neutral; stated for the two shapes that occur. -/
theorem hierRel.setMem {n : Nat} (h : Hierarchy n) (m : Mem) :
    hierRel h { h with mem := m } :=
  ⟨stRel.refl _, rfl, optStRel.refl _, ChainRel.refl _⟩

theorem hierRel.setPs {n : Nat} (h : Hierarchy n) (p : PrefetchStatistics) :
    hierRel h { h with prefetchStatistics := p } :=
  ⟨stRel.refl _, rfl, optStRel.refl _, ChainRel.refl _⟩

theorem fetchL1_rel {n : Nat} (h : Hierarchy n) (a : Nat) :
    hierRel h (h.fetchL1 a) := by
  have hr := cacheFetch_rel h.l1 h.lower h.mem a
  exact ⟨hr.1.toRel, rfl, hr.2.1, hr.2.2⟩

theorem readL1_rel {n : Nat} (h : Hierarchy n) (a : Nat) :
    hierRel h (h.readL1 a) := by
  have hr := cacheRead_rel h.l1 h.lower h.mem a
  exact ⟨hr.1, rfl, hr.2.1, hr.2.2⟩

theorem writeL1_rel {n : Nat} (h : Hierarchy n) (a v : Nat) :
    hierRel h (h.writeL1 a v) := by
  have hr := cacheWrite_rel h.l1 h.lower h.mem a v
  exact ⟨hr.1, rfl, hr.2.1, hr.2.2⟩

theorem ensurePage_rel {n : Nat} (h : Hierarchy n) (a : Nat) :
    hierRel h (h.ensurePage a) := by
  unfold Hierarchy.ensurePage
  split
  · exact hierRel.refl h
  · exact hierRel.setMem h _

theorem prefetchIssue_rel {n : Nat} (h : Hierarchy n) (a : Nat) :
    hierRel h (h.prefetchIssue a) := by
  unfold Hierarchy.prefetchIssue
  dsimp only
  split
  · refine hierRel.trans ?_ (fetchL1_rel _ _)
    split
    · exact hierRel.refl h
    · exact hierRel.setMem h _
  · exact hierRel.refl h

theorem processMemoryAccess_rel {n : Nat} (h : Hierarchy n) (op : Char)
    (a : Nat) : hierRel h (h.processMemoryAccess op a) := by
  unfold Hierarchy.processMemoryAccess
  dsimp only
  have hpre : hierRel h
      (if (h.ensurePage a).enablePrefetch = true then
        { (h.ensurePage a).prefetchIssue a with
          prefetchStatistics :=
            strideUpdate ((h.ensurePage a).prefetchIssue a).prefetchStatistics a }
      else h.ensurePage a) := by
    split
    · exact hierRel.trans (hierRel.trans (ensurePage_rel h a) (prefetchIssue_rel _ a))
        (hierRel.setPs _ _)
    · exact ensurePage_rel h a
  split
  · exact hierRel.trans hpre (readL1_rel _ _)
  · exact hierRel.trans hpre (writeL1_rel _ _ _)
  · exact hpre

theorem processTrace_rel {n : Nat} (h : Hierarchy n) (tr : List (Char × Nat)) :
    hierRel h (Hierarchy.processTrace h tr) := by
  induction tr generalizing h with
  | nil => exact hierRel.refl h
  | cons p tr ih => exact hierRel.trans (processMemoryAccess_rel h p.1 p.2) (ih _)

/-! ### The per-level counter invariant and the id invariant, hierarchy-wide -/

/-- `statOk` for a cache and its victim cache. -/
def nodeStatOk (c : CacheNode) : Prop :=
  statOk c.self.statistics ∧ ∀ v, c.victim = some v → statOk v.statistics

/-- `statOk` at every level of a chain. -/
def chainStatOk : ∀ {n : Nat}, Chain n → Prop
  | _, .nil => True
  | _, .cons c r => nodeStatOk c ∧ chainStatOk r

/-- `statOk` at every level of the hierarchy. -/
def hierStatOk {n : Nat} (h : Hierarchy n) : Prop :=
  nodeStatOk h.l1 ∧ chainStatOk h.lower

theorem statOk.ofDelta {s s' : Statistics} (h : statOk s) (hd : statDeltaOk s s') :
    statOk s' := by
  simp only [statOk, statDeltaOk] at *
  omega

def nodeStatOk.preserve {c c' : CacheNode} (h : nodeStatOk c)
    (hs : stRel c.self c'.self) (hv : optStRel c.victim c'.victim) :
    nodeStatOk c' := by
  refine ⟨h.1.ofDelta hs.2.2.1, fun v' hv' => ?_⟩
  cases hcv : c.victim with
  | none => rw [hcv, hv'] at hv; exact hv.elim
  | some v => rw [hcv, hv'] at hv; exact (h.2 v hcv).ofDelta hv.2.2.1

def chainStatOk.preserve {n : Nat} {a b : Chain n} (hr : ChainRel a b)
    (h : chainStatOk a) : chainStatOk b := by
  induction hr with
  | nil => trivial
  | cons hs he hv hrr ih => exact ⟨h.1.preserve hs hv, ih h.2⟩

def hierStatOk.preserve {n : Nat} {a b : Hierarchy n} (hr : hierRel a b)
    (h : hierStatOk a) : hierStatOk b :=
  ⟨h.1.preserve hr.1 hr.2.2.1, chainStatOk.preserve hr.2.2.2 h.2⟩

/-- Fresh caches have all-zero counters. -/
def nodeStatOk.mk (p : Policy) : nodeStatOk (mkCacheNode p) :=
  ⟨rfl, fun _ hv => nomatch hv⟩

def hierStatOk.mk (f1 f2 f3 : Bool) : hierStatOk (mkHierarchy f1 f2 f3) :=
  ⟨nodeStatOk.mk _, nodeStatOk.mk _, nodeStatOk.mk _, trivial⟩

/-- Positive associativity plus the structural id invariant, for a cache
and its victim. -/
def nodeIdOk (c : CacheNode) : Prop :=
  (0 < c.self.policy.associativity ∧ idInvS c.self)
    ∧ ∀ v, c.victim = some v → 0 < v.policy.associativity ∧ idInvS v

/-- The id invariant at every level of a chain. -/
def chainIdOk : ∀ {n : Nat}, Chain n → Prop
  | _, .nil => True
  | _, .cons c r => nodeIdOk c ∧ chainIdOk r

/-- The id invariant at every level of the hierarchy. -/
def hierIdOk {n : Nat} (h : Hierarchy n) : Prop :=
  nodeIdOk h.l1 ∧ chainIdOk h.lower

def nodeIdOk.preserve {c c' : CacheNode} (h : nodeIdOk c)
    (hs : stRel c.self c'.self) (hv : optStRel c.victim c'.victim) :
    nodeIdOk c' := by
  refine ⟨⟨hs.1 ▸ h.1.1, hs.2.2.2 h.1.1 h.1.2⟩, fun v' hv' => ?_⟩
  cases hcv : c.victim with
  | none => rw [hcv, hv'] at hv; exact hv.elim
  | some v =>
    rw [hcv, hv'] at hv
    have hp := h.2 v hcv
    exact ⟨hv.1 ▸ hp.1, hv.2.2.2 hp.1 hp.2⟩

def chainIdOk.preserve {n : Nat} {a b : Chain n} (hr : ChainRel a b)
    (h : chainIdOk a) : chainIdOk b := by
  induction hr with
  | nil => trivial
  | cons hs he hv hrr ih => exact ⟨h.1.preserve hs hv, ih h.2⟩

def hierIdOk.preserve {n : Nat} {a b : Hierarchy n} (hr : hierRel a b)
    (h : hierIdOk a) : hierIdOk b :=
  ⟨h.1.preserve hr.1 hr.2.2.1, chainIdOk.preserve hr.2.2.2 h.2⟩

/-- A fresh cache satisfies the id invariant by construction. -/
def nodeIdOk.mk (p : Policy) (hp : 0 < p.associativity) :
    nodeIdOk (mkCacheNode p) :=
  ⟨⟨hp, fun _ => rfl⟩, fun _ hv => nomatch hv⟩

def hierIdOk.mk (f1 f2 f3 : Bool) : hierIdOk (mkHierarchy f1 f2 f3) :=
  ⟨nodeIdOk.mk _ (by decide), nodeIdOk.mk _ (by decide),
    nodeIdOk.mk _ (by decide), trivial⟩

/-- The checked set scan never reaches the `Inconsistent ID` branch when
every structural id is consistent. -/
theorem scanChecked_ok (c : CacheState) (tag idx : Nat) :
    ∀ js : List Nat,
      (∀ j ∈ js, (c.blocks (idx * c.policy.associativity + j)).id = idx) →
      c.scanChecked tag idx js
        = .ok ((js.find? fun j =>
              (c.blocks (idx * c.policy.associativity + j)).valid
                && (c.blocks (idx * c.policy.associativity + j)).tag == tag).map
            fun j => idx * c.policy.associativity + j) := by
  intro js
  induction js with
  | nil => intro _; rfl
  | cons j js ih =>
    intro hids
    unfold CacheState.scanChecked
    dsimp only
    rw [if_neg (by simp [hids j (List.mem_cons_self j js)])]
    by_cases hpj : ((c.blocks (idx * c.policy.associativity + j)).valid
        && (c.blocks (idx * c.policy.associativity + j)).tag == tag) = true
    · rw [if_pos hpj]
      have hf : List.find? (fun j =>
          (c.blocks (idx * c.policy.associativity + j)).valid
            && (c.blocks (idx * c.policy.associativity + j)).tag == tag) (j :: js)
          = some j := List.find?_cons_of_pos _ hpj
      rw [hf]
      rfl
    · rw [if_neg hpj]
      have hf : List.find? (fun j =>
          (c.blocks (idx * c.policy.associativity + j)).valid
            && (c.blocks (idx * c.policy.associativity + j)).tag == tag) (j :: js)
          = List.find? (fun j =>
          (c.blocks (idx * c.policy.associativity + j)).valid
            && (c.blocks (idx * c.policy.associativity + j)).tag == tag) js :=
        List.find?_cons_of_neg _ hpj
      rw [hf]
      exact ih fun j2 hj2 => hids j2 (List.mem_cons_of_mem j hj2)

/-- Under the id invariant, `getBlockId` with the fatal check equals the
plain `getBlockId`: the `Inconsistent ID` error is unreachable. -/
theorem getBlockIdChecked_ok (c : CacheState) (addr : Nat) (h : idInvS c) :
    c.getBlockIdChecked addr = .ok (c.getBlockId addr) := by
  unfold CacheState.getBlockIdChecked CacheState.getBlockId
  refine scanChecked_ok c _ _ (List.range c.policy.associativity) ?_
  intro j hj
  rw [List.mem_range] at hj
  rw [h (c.getId addr * c.policy.associativity + j)]
  have hx : (c.getId addr + 1) * c.policy.associativity
      = c.getId addr * c.policy.associativity + c.policy.associativity := by ring
  exact Nat.div_eq_of_lt_le (by omega) (by omega)

/-- `Cache::read` bumps `numRead` and exactly one of `numHit`/`numMiss`
at its own level. -/
theorem cacheRead_counts {n : Nat} (c : CacheNode) (rest : Chain n) (m : Mem)
    (addr : Nat) :
    ((cacheRead c rest m addr).2).self.statistics.numRead
        = c.self.statistics.numRead + 1
      ∧ ((cacheRead c rest m addr).2).self.statistics.numWrite
        = c.self.statistics.numWrite
      ∧ ((cacheRead c rest m addr).2).self.statistics.numHit
          + ((cacheRead c rest m addr).2).self.statistics.numMiss
        = c.self.statistics.numHit + c.self.statistics.numMiss + 1 := by
  unfold cacheRead
  dsimp only
  split <;> rename_i hin
  · have h := (cacheGetByte_rel ⟨{ c.self with
      statistics := c.self.statistics.addRead.addHit c.self.policy.hitLatency },
      c.enableVictimCache, c.victim⟩ rest m addr).1.2.2.1
    obtain ⟨e1, e2, e3, e4⟩ := h
    refine ⟨?_, ?_, ?_⟩
    · rw [e1]
      simp [Statistics.addRead, Statistics.addHit]
    · rw [e2]
      simp [Statistics.addRead, Statistics.addHit]
    · rw [e3, e4]
      simp only [Statistics.addRead, Statistics.addHit]
      omega
  · have h := (cacheGetByte_rel ⟨{ c.self with
      statistics := c.self.statistics.addRead.addMiss c.self.policy.missLatency },
      c.enableVictimCache, c.victim⟩ rest m addr).1.2.2.1
    obtain ⟨e1, e2, e3, e4⟩ := h
    refine ⟨?_, ?_, ?_⟩
    · rw [e1]
      simp [Statistics.addRead, Statistics.addMiss]
    · rw [e2]
      simp [Statistics.addRead, Statistics.addMiss]
    · rw [e3, e4]
      simp only [Statistics.addRead, Statistics.addMiss]
      omega

/-- `Cache::write` bumps `numWrite` and exactly one of `numHit`/`numMiss`
at its own level. -/
theorem cacheWrite_counts {n : Nat} (c : CacheNode) (rest : Chain n) (m : Mem)
    (addr v : Nat) :
    (cacheWrite c rest m addr v).self.statistics.numWrite
        = c.self.statistics.numWrite + 1
      ∧ (cacheWrite c rest m addr v).self.statistics.numRead
        = c.self.statistics.numRead
      ∧ (cacheWrite c rest m addr v).self.statistics.numHit
          + (cacheWrite c rest m addr v).self.statistics.numMiss
        = c.self.statistics.numHit + c.self.statistics.numMiss + 1 := by
  unfold cacheWrite
  dsimp only
  split <;> rename_i hin
  · have h := (cacheSetByte_rel ⟨{ c.self with
      statistics := c.self.statistics.addWrite.addHit c.self.policy.hitLatency },
      c.enableVictimCache, c.victim⟩ rest m addr v).1.2.2.1
    obtain ⟨e1, e2, e3, e4⟩ := h
    refine ⟨?_, ?_, ?_⟩
    · rw [e2]
      simp [Statistics.addWrite, Statistics.addHit]
    · rw [e1]
      simp [Statistics.addWrite, Statistics.addHit]
    · rw [e3, e4]
      simp only [Statistics.addWrite, Statistics.addHit]
      omega
  · have h := (cacheSetByte_rel ⟨{ c.self with
      statistics := c.self.statistics.addWrite.addMiss c.self.policy.missLatency },
      c.enableVictimCache, c.victim⟩ rest m addr v).1.2.2.1
    obtain ⟨e1, e2, e3, e4⟩ := h
    refine ⟨?_, ?_, ?_⟩
    · rw [e2]
      simp [Statistics.addWrite, Statistics.addMiss]
    · rw [e1]
      simp [Statistics.addWrite, Statistics.addMiss]
    · rw [e3, e4]
      simp only [Statistics.addWrite, Statistics.addMiss]
      omega

/-! ### Characterising the replacement choice (spec side) -/

/-- Spec reading, rule 1: the lowest-indexed invalid slot of the set. -/
def lowestInvalid (c : CacheState) (l : List Nat) (i : Nat) : Prop :=
  i ∈ l ∧ (c.blocks i).valid = false
    ∧ ∀ j ∈ l, (c.blocks j).valid = false → i ≤ j

/-- Spec reading, rules 2 and 3: the slot minimising `f`, ties broken by
the lowest index. -/
def firstMinBy (f : Nat → Nat) (l : List Nat) (i : Nat) : Prop :=
  i ∈ l ∧ (∀ j ∈ l, f i ≤ f j) ∧ ∀ j ∈ l, f j = f i → i ≤ j

/-- The spec's three-rule description of the replacement choice over the
slots `[b, e)` of a set: lowest-indexed invalid slot if any; else minimum
`createdAt` under FIFO; else minimum `lastReference` (LRU); ties always
to the lowest index. -/
def specReplacementChoice (c : CacheState) (b e i : Nat) : Prop :=
  ((∃ j ∈ List.range' b (e - b), (c.blocks j).valid = false) →
      lowestInvalid c (List.range' b (e - b)) i)
    ∧ ((∀ j ∈ List.range' b (e - b), (c.blocks j).valid = true) →
        c.enableFifo = true →
        firstMinBy (fun j => (c.blocks j).createdAt) (List.range' b (e - b)) i)
    ∧ ((∀ j ∈ List.range' b (e - b), (c.blocks j).valid = true) →
        c.enableFifo = false →
        firstMinBy (fun j => (c.blocks j).lastReference) (List.range' b (e - b)) i)

/-- `find?` over a contiguous ascending range returns the least index
satisfying the predicate. -/
theorem find_range_first {p : Nat → Bool} :
    ∀ (k b i : Nat), (List.range' b k).find? p = some i →
      p i = true ∧ i ∈ List.range' b k
        ∧ ∀ j ∈ List.range' b k, p j = true → i ≤ j := by
  intro k
  induction k with
  | zero => intro b i h; exact absurd h (by simp)
  | succ k ih =>
    intro b i h
    rw [List.range'_succ] at h ⊢
    by_cases hpb : p b = true
    · have hf : List.find? p (b :: List.range' (b + 1) k) = some b :=
        List.find?_cons_of_pos _ hpb
      rw [hf] at h
      cases h
      refine ⟨hpb, List.mem_cons_self _ _, fun j hj _ => ?_⟩
      rcases List.mem_cons.mp hj with hj | hj
      · omega
      · rw [List.mem_range'_1] at hj; omega
    · have hf : List.find? p (b :: List.range' (b + 1) k)
          = List.find? p (List.range' (b + 1) k) :=
        List.find?_cons_of_neg _ (by simpa using hpb)
      rw [hf] at h
      obtain ⟨h1, h2, h3⟩ := ih (b + 1) i h
      refine ⟨h1, List.mem_cons_of_mem _ h2, fun j hj hpj => ?_⟩
      rcases List.mem_cons.mp hj with hj | hj
      · subst hj; exact absurd hpj hpb
      · exact h3 j hj hpj

/-- What the strict-`<` running-minimum scan computes, relative to its
starting candidate `p` and the scanned range. -/
def minFoldOut (f : Nat → Nat) (l : List Nat) (p : Nat) (r : Nat × Nat) : Prop :=
  (r.1 = p ∨ r.1 ∈ l) ∧ r.2 = f r.1 ∧ f r.1 ≤ f p
    ∧ (∀ j ∈ l, f r.1 ≤ f j) ∧ (f r.1 = f p → r.1 = p)
    ∧ ∀ j ∈ l, f j = f r.1 → r.1 ≤ j

/-- The running-minimum scan of `getReplacementBlockId` keeps the first
minimiser: over an ascending range strictly above the start candidate,
its result is the lowest-index minimiser of candidate and range. -/
theorem foldlMin_range {g : Nat × Nat → Nat → Nat × Nat} (f : Nat → Nat)
    (hg : ∀ a i, g a i = if f i < a.2 then (i, f i) else a) :
    ∀ (k s p : Nat), p < s →
      minFoldOut f (List.range' s k) p ((List.range' s k).foldl g (p, f p)) := by
  intro k
  induction k with
  | zero =>
    intro s p _
    exact ⟨Or.inl rfl, rfl, le_refl _, by simp, fun _ => rfl, by simp⟩
  | succ k ih =>
    intro s p hps
    rw [List.range'_succ, List.foldl_cons, hg (p, f p) s]
    by_cases hfs : f s < f p
    · rw [if_pos hfs]
      obtain ⟨m1, m2, m3, m4, m5, m6⟩ := ih (s + 1) s (Nat.lt_succ_self s)
      refine ⟨?_, m2, ?_, ?_, ?_, ?_⟩
      · rcases m1 with h | h
        · exact Or.inr (by rw [h]; exact List.mem_cons_self _ _)
        · exact Or.inr (List.mem_cons_of_mem _ h)
      · exact le_of_lt (lt_of_le_of_lt m3 hfs)
      · intro j hj
        rcases List.mem_cons.mp hj with hj | hj
        · subst hj; exact m3
        · exact m4 j hj
      · intro hq
        exact absurd hq (by have := lt_of_le_of_lt m3 hfs; omega)
      · intro j hj hfj
        rcases List.mem_cons.mp hj with hj | hj
        · subst hj; exact (m5 hfj.symm).le
        · exact m6 j hj hfj
    · rw [if_neg hfs]
      have hle : f p ≤ f s := Nat.le_of_not_lt hfs
      obtain ⟨m1, m2, m3, m4, m5, m6⟩ := ih (s + 1) p (Nat.lt_succ_of_lt hps)
      refine ⟨?_, m2, m3, ?_, m5, ?_⟩
      · rcases m1 with h | h
        · exact Or.inl h
        · exact Or.inr (List.mem_cons_of_mem _ h)
      · intro j hj
        rcases List.mem_cons.mp hj with hj | hj
        · subst hj; exact le_trans m3 hle
        · exact m4 j hj
      · intro j hj hfj
        rcases List.mem_cons.mp hj with hj | hj
        · rw [hj] at hfj ⊢
          have hfp : f (((List.range' (s + 1) k).foldl g (p, f p)).1) = f p := by
            omega
          rw [m5 hfp]
          omega
        · exact m6 j hj hfj

/-- From the scan output to the spec's first-minimiser property over the
whole set `[b, e)`. -/
theorem minFoldOut.toFirstMinBy {f : Nat → Nat} {b e : Nat} {r : Nat × Nat}
    (hbe : b < e)
    (h : minFoldOut f (List.range' (b + 1) (e - (b + 1))) b r) :
    firstMinBy f (List.range' b (e - b)) r.1 := by
  obtain ⟨m1, m2, m3, m4, m5, m6⟩ := h
  have hsplit : List.range' b (e - b) = b :: List.range' (b + 1) (e - (b + 1)) := by
    have h1 : e - b = (e - (b + 1)) + 1 := by omega
    rw [h1, List.range'_succ]
  rw [hsplit]
  refine ⟨?_, ?_, ?_⟩
  · rcases m1 with h | h
    · exact by rw [h]; exact List.mem_cons_self _ _
    · exact List.mem_cons_of_mem _ h
  · intro j hj
    rcases List.mem_cons.mp hj with hj | hj
    · subst hj; exact m3
    · exact m4 j hj
  · intro j hj hfj
    rcases List.mem_cons.mp hj with hj | hj
    · subst hj; exact (m5 hfj.symm).le
    · exact m6 j hj hfj

/-- C3: For every cache state and every non-empty slot range `[b, e)`
(in particular every address's set when `associativity > 0`),
`getReplacementBlockId` returns: the lowest-indexed invalid slot if any
slot is invalid; else, with FIFO enabled, the slot with minimum
`createdAt`; else the slot with minimum `lastReference`; ties always
broken by the lowest index. -/
theorem C3_replacement_choice (c : CacheState) (b e : Nat) (h : b < e) :
    specReplacementChoice c b e (c.getReplacementBlockId b e) := by
  unfold CacheState.getReplacementBlockId
  split
  · rename_i i hfind
    obtain ⟨h1, h2, h3⟩ := find_range_first (e - b) b i hfind
    refine ⟨fun _ => ⟨h2, by simpa using h1, fun j hj hvj => h3 j hj (by simp [hvj])⟩,
      fun hall _ => ?_, fun hall _ => ?_⟩
    · have := hall i h2
      simp [this] at h1
    · have := hall i h2
      simp [this] at h1
  · rename_i hfind
    have hall : ∀ j ∈ List.range' b (e - b), (c.blocks j).valid = true := by
      intro j hj
      have := List.find?_eq_none.mp hfind j hj
      simpa using this
    refine ⟨fun hex => ?_, fun _ hf => ?_, fun _ hf => ?_⟩
    · obtain ⟨j, hj, hv⟩ := hex
      rw [hall j hj] at hv
      exact absurd hv (by simp)
    · rw [hf, if_pos rfl]
      exact (foldlMin_range (fun j => (c.blocks j).createdAt)
        (fun a i => by by_cases hx : (c.blocks i).createdAt < a.2 <;> simp [hx])
        (e - (b + 1)) (b + 1) b (Nat.lt_succ_self b)).toFirstMinBy h
    · rw [hf, if_neg (by simp)]
      have hsplit : List.range' b (e - b) = b :: List.range' (b + 1) (e - (b + 1)) := by
        have h1 : e - b = (e - (b + 1)) + 1 := by omega
        rw [h1, List.range'_succ]
      have hfold : (List.range' b (e - b)).foldl
          (fun acc i =>
            if (c.blocks i).lastReference < acc.2 then (i, (c.blocks i).lastReference)
            else acc)
          (b, (c.blocks b).lastReference)
          = (List.range' (b + 1) (e - (b + 1))).foldl
          (fun acc i =>
            if (c.blocks i).lastReference < acc.2 then (i, (c.blocks i).lastReference)
            else acc)
          (b, (c.blocks b).lastReference) := by
        rw [hsplit, List.foldl_cons]
        simp
      rw [hfold]
      exact (foldlMin_range (fun j => (c.blocks j).lastReference)
        (fun a i => by by_cases hx : (c.blocks i).lastReference < a.2 <;> simp [hx])
        (e - (b + 1)) (b + 1) b (Nat.lt_succ_self b)).toFirstMinBy h

/-! ### What a load installs -/

/-- The blocks array after `loadBlockFromLowerLevel` on `addr`: the
replacement slot of `addr`'s set overwritten with a fresh valid block
carrying `addr`'s tag and set id (its data depends on the lower levels). -/
def installsAt (c : CacheState) (addr : Nat) (d : Nat → Nat) : Nat → Block :=
  updBlocks c.blocks
    (c.getReplacementBlockId (c.getId addr * c.policy.associativity)
      ((c.getId addr + 1) * c.policy.associativity))
    { valid := true, modified := false, tag := c.getTag addr, id := c.getId addr
      size := c.policy.blockSize, lastReference := c.referenceCounter
      createdAt := c.referenceCounter, data := d }

/-- `writeBlockToLowerLevel` never touches this level's state. -/
theorem mkWriteBlock_self {n : Nat}
    {vicSet : CacheNode → Chain n → Mem → Nat → Nat → OpResult n}
    {low : ChainOps n} (c : CacheNode) (rest : Chain n) (m : Mem) (b : Block) :
    (mkWriteBlock vicSet low c rest m b).self = c.self := by
  unfold mkWriteBlock
  split
  · rfl
  · split
    · rfl
    · rfl

/-- Evict-and-install writes exactly the new block into the chosen slot
of this level's blocks array. -/
theorem mkEvictInstall_blocks {n : Nat}
    {wb : CacheNode → Chain n → Mem → Block → OpResult n}
    {vicSet : CacheNode → Chain n → Mem → Nat → Nat → OpResult n}
    (hw : ∀ c rest m b, (wb c rest m b).self = c.self)
    (c : CacheNode) (rest : Chain n) (m : Mem) (i : Nat) (rb nb : Block) :
    (mkEvictInstall wb vicSet c rest m i rb nb).self.blocks
      = updBlocks c.self.blocks i nb := by
  unfold mkEvictInstall
  dsimp only
  split
  · split
    · rw [hw c rest m rb]
    · split
      · rfl
      · rfl
  · rfl

/-- Loading through the lower level installs the staged block (with the
fetched data) into the chosen slot. -/
theorem mkLoadVia_blocks {n : Nat} {low : ChainOps n}
    {evict : CacheNode → Chain n → Mem → Nat → Block → Block → OpResult n}
    (he : ∀ c rest m i rb nb, (evict c rest m i rb nb).self.blocks
      = updBlocks c.self.blocks i nb)
    (c : CacheNode) (rest : Chain n) (m : Mem) (bab : Nat) (ir : Bool)
    (nb : Block) (i : Nat) (rb : Block) :
    ∃ d, (mkLoadVia low evict c rest m bab ir nb i rb).self.blocks
      = updBlocks c.self.blocks i { nb with data := d } := by
  unfold mkLoadVia
  cases rest with
  | nil => exact ⟨_, he _ _ _ _ _ _⟩
  | cons c2 rest2 => exact ⟨_, he _ _ _ _ _ _⟩

/-- `loadBlockFromLowerLevel` (any victim configuration) installs a fresh
valid block with `addr`'s tag and set id into the replacement slot. -/
theorem mkLoad_blocks {n : Nat}
    {vicGet : CacheNode → Chain n → Mem → Nat → Nat × OpResult n}
    {evict : CacheNode → Chain n → Mem → Nat → Block → Block → OpResult n}
    {loadVia : CacheNode → Chain n → Mem → Nat → Bool → Block → Nat → Block → OpResult n}
    (he : ∀ c rest m i rb nb, (evict c rest m i rb nb).self.blocks
      = updBlocks c.self.blocks i nb)
    (hlv : ∀ (c : CacheNode) rest m bab ir nb i rb,
      ∃ d, (loadVia c rest m bab ir nb i rb).self.blocks
        = updBlocks c.self.blocks i { nb with data := d })
    (c : CacheNode) (rest : Chain n) (m : Mem) (addr : Nat) (ir : Bool) :
    ∃ d, (mkLoad vicGet evict loadVia c rest m addr ir).self.blocks
      = installsAt c.self addr d := by
  unfold mkLoad
  dsimp only
  split
  · rename_i v heq1 heq2
    split <;> split <;>
      first
        | exact ⟨_, he _ _ _ _ _ _⟩
        | exact hlv _ _ _ _ _ _ _ _
  · exact hlv _ _ _ _ _ _ _ _

theorem loadBlockFromLowerLevel_blocks {n : Nat} (c : CacheNode) (rest : Chain n)
    (m : Mem) (addr : Nat) (ir : Bool) :
    ∃ d, (loadBlockFromLowerLevel c rest m addr ir).self.blocks
      = installsAt c.self addr d := by
  refine mkLoad_blocks (fun c rest m i rb nb => ?_) (fun c rest m bab ir nb i rb => ?_)
    c rest m addr ir
  · exact mkEvictInstall_blocks (fun c rest m b => mkWriteBlock_self c rest m b)
      c rest m i rb nb
  · exact mkLoadVia_blocks (fun c rest m i rb nb =>
      mkEvictInstall_blocks (fun c rest m b => mkWriteBlock_self c rest m b)
        c rest m i rb nb) c rest m bab ir nb i rb

/-- The address decode depends only on the policy. -/
theorem getTag_policy {s c : CacheState} (hp : s.policy = c.policy) (a : Nat) :
    s.getTag a = c.getTag a := by
  unfold CacheState.getTag CacheState.offsetBits CacheState.idBits
  rw [hp]

theorem getId_policy {s c : CacheState} (hp : s.policy = c.policy) (a : Nat) :
    s.getId a = c.getId a := by
  unfold CacheState.getId CacheState.offsetBits CacheState.idBits
  rw [hp]

/-- A state whose blocks array is `installsAt c addr` (and whose policy is
`c`'s) holds `addr`: the scan of `addr`'s set finds the installed slot. -/
theorem inCache_install {c s : CacheState} {addr : Nat} {d : Nat → Nat}
    (ha : 0 < c.policy.associativity) (hp : s.policy = c.policy)
    (hb : s.blocks = installsAt c addr d) : s.inCache addr = true := by
  have hmem := getReplacementBlockId_mem c (c.getId addr * c.policy.associativity)
    ((c.getId addr + 1) * c.policy.associativity)
    (by have hx : (c.getId addr + 1) * c.policy.associativity
          = c.getId addr * c.policy.associativity + c.policy.associativity := by ring
        omega)
  unfold CacheState.inCache CacheState.getBlockId
  dsimp only
  rw [Option.isSome_map']
  rw [List.find?_isSome]
  refine ⟨c.getReplacementBlockId (c.getId addr * c.policy.associativity)
      ((c.getId addr + 1) * c.policy.associativity)
    - c.getId addr * c.policy.associativity, ?_, ?_⟩
  · rw [List.mem_range]
    have hx : (c.getId addr + 1) * c.policy.associativity
        = c.getId addr * c.policy.associativity + c.policy.associativity := by ring
    rw [hp]
    omega
  · rw [hb, getId_policy hp, getTag_policy hp, hp]
    have hidx : c.getId addr * c.policy.associativity
        + (c.getReplacementBlockId (c.getId addr * c.policy.associativity)
            ((c.getId addr + 1) * c.policy.associativity)
          - c.getId addr * c.policy.associativity)
        = c.getReplacementBlockId (c.getId addr * c.policy.associativity)
            ((c.getId addr + 1) * c.policy.associativity) := by
      omega
    rw [hidx]
    unfold installsAt updBlocks
    simp

/-! ## The claims -/

/-- C5: after `fetch(addr)` the block holding `addr` is resident:
`inCache(addr) = true`, and when it was absent a fresh valid block with
`addr`'s tag and set id has been installed into a slot of `addr`'s set. -/
theorem C5_fetch_installs {n : Nat} (c : CacheNode) (rest : Chain n) (m : Mem)
    (addr : Nat) (ha : 0 < c.self.policy.associativity) :
    (cacheFetch c rest m addr).self.inCache addr = true
      ∧ (c.self.inCache addr = false →
          ∃ d, (cacheFetch c rest m addr).self.blocks = installsAt c.self addr d) := by
  unfold cacheFetch
  split
  · rename_i x hgb
    refine ⟨?_, ?_⟩
    · show c.self.inCache addr = true
      unfold CacheState.inCache
      rw [hgb]
      rfl
    · intro hfalse
      unfold CacheState.inCache at hfalse
      rw [hgb] at hfalse
      exact absurd hfalse (by simp)
  · rename_i hgb
    obtain ⟨d, hd⟩ := loadBlockFromLowerLevel_blocks c rest m addr true
    exact ⟨inCache_install ha (loadBlockFromLowerLevel_rel c rest m addr true).1.1 hd,
      fun _ => ⟨d, hd⟩⟩

/-- C5 witness: a direct-mapped L1 over memory alone resolves a fetch of
address 0. -/
theorem C5_fetch_installs_witness :
    0 < (mkCacheNode L1Config).self.policy.associativity
      ∧ (cacheFetch (mkCacheNode L1Config) Chain.nil Mem.init 0).self.inCache 0 = true :=
  ⟨by decide, (C5_fetch_installs (mkCacheNode L1Config) Chain.nil Mem.init 0
    (by decide)).1⟩

/-- C10: `fetch(addr)` on a resident address is a complete no-op: the
level's state (blocks, `lastReference`, reference counter, statistics),
its victim cache, the lower chain and memory are all returned exactly
unchanged. -/
theorem C10_fetch_hit_noop {n : Nat} (c : CacheNode) (rest : Chain n) (m : Mem)
    (addr : Nat) (h : c.self.inCache addr = true) :
    cacheFetch c rest m addr = ⟨c.self, c.victim, rest, m⟩ := by
  unfold cacheFetch
  split
  · rfl
  · rename_i hgb
    unfold CacheState.inCache at h
    rw [hgb] at h
    exact absurd h (by simp)

/-- C10 witness: address 0 is resident after fetching it once; the second
fetch returns everything unchanged. -/
theorem C10_fetch_hit_noop_witness :
    ((cacheFetch (mkCacheNode L1Config) Chain.nil Mem.init 0).node false).self.inCache 0
        = true
      ∧ cacheFetch
          ((cacheFetch (mkCacheNode L1Config) Chain.nil Mem.init 0).node false)
          (cacheFetch (mkCacheNode L1Config) Chain.nil Mem.init 0).rest
          (cacheFetch (mkCacheNode L1Config) Chain.nil Mem.init 0).mem 0
        = ⟨((cacheFetch (mkCacheNode L1Config) Chain.nil Mem.init 0).node false).self,
            ((cacheFetch (mkCacheNode L1Config) Chain.nil Mem.init 0).node false).victim,
            (cacheFetch (mkCacheNode L1Config) Chain.nil Mem.init 0).rest,
            (cacheFetch (mkCacheNode L1Config) Chain.nil Mem.init 0).mem⟩ :=
  ⟨by decide,
    C10_fetch_hit_noop ((cacheFetch (mkCacheNode L1Config) Chain.nil Mem.init 0).node false)
      (cacheFetch (mkCacheNode L1Config) Chain.nil Mem.init 0).rest
      (cacheFetch (mkCacheNode L1Config) Chain.nil Mem.init 0).mem 0 (by decide)⟩

/-- C2: with an enabled victim cache, `getStatistics` returns the raw
counters with the victim's hits moved from this level's misses to its
hits (`numRead`, `numWrite`, `totalCycles` unchanged); without one it
returns the raw counters.  The subtraction hypothesis rules out the
underflow the source's unsigned counters could not represent either. -/
theorem C2_getStatistics_adjustment :
    (∀ (c : CacheNode) (v : CacheState), c.enableVictimCache = true →
        c.victim = some v → v.statistics.numHit ≤ c.self.statistics.numMiss →
        c.getStatistics = { c.self.statistics with
          numMiss := c.self.statistics.numMiss - v.statistics.numHit
          numHit := c.self.statistics.numHit + v.statistics.numHit })
      ∧ (∀ c : CacheNode, c.enableVictimCache = false →
          c.getStatistics = c.self.statistics)
      ∧ (∀ c : CacheNode, c.victim = none → c.getStatistics = c.self.statistics) := by
  refine ⟨fun c v h1 h2 h3 => ?_, fun c h => ?_, fun c h => ?_⟩
  · unfold CacheNode.getStatistics
    rw [h1, if_pos rfl, h2]
  · unfold CacheNode.getStatistics
    rw [h, if_neg (by simp)]
  · unfold CacheNode.getStatistics
    split
    · rw [h]
    · rfl

/-- C2 witness: a cache with 3 raw misses and a victim with 2 hits
reports 1 miss and 2 extra hits. -/
theorem C2_getStatistics_adjustment_witness :
    (CacheNode.getStatistics
        ⟨{ mkCacheState L1Config with statistics := ⟨5, 0, 2, 3, 40⟩ }, true,
          some { mkCacheState victimCachePolicy with statistics := ⟨3, 0, 2, 1, 10⟩ }⟩)
      = ⟨5, 0, 4, 1, 40⟩ := by
  have h := C2_getStatistics_adjustment.1
    ⟨{ mkCacheState L1Config with statistics := ⟨5, 0, 2, 3, 40⟩ }, true,
      some { mkCacheState victimCachePolicy with statistics := ⟨3, 0, 2, 1, 10⟩ }⟩
    { mkCacheState victimCachePolicy with statistics := ⟨3, 0, 2, 1, 10⟩ }
    rfl rfl (by decide)
  rw [h]
  decide

/-- A one-slot direct-mapped cache holding a dirty block, about to fetch
a conflicting address. -/
def c4state : CacheState :=
  { policy := { cacheSize := 2, blockSize := 1, blockNum := 2, associativity := 1
                hitLatency := 1, missLatency := 8 }
    blocks := fun i =>
      { valid := true, modified := true, tag := 0, id := i, size := 1
        lastReference := 0, createdAt := 0, data := fun _ => 0 }
    referenceCounter := 0
    statistics := ⟨0, 0, 0, 0, 0⟩
    enableFifo := false }

/-- C4 counterexample: `fetch` of an absent address is NOT free of
statistics side effects at this level: when the evicted block is dirty,
the writeback charges this level `missLatency` cycles
(`totalCycles` changes from 0 to 8 here). -/
theorem C4_counterexample :
    c4state.inCache 2 = false
      ∧ (cacheFetch ⟨c4state, false, none⟩ Chain.nil Mem.init 2).self.statistics.totalCycles
          ≠ c4state.statistics.totalCycles := by
  decide

/-- C4 amended: `fetch` of an absent address never changes `numRead`,
`numWrite`, `numHit` or `numMiss` at its own level (lower levels keep
their own accounting), but `totalCycles` at this level is not preserved:
a dirty eviction adds `missLatency` (see `C4_counterexample`). -/
theorem C4_fetch_counters {n : Nat} (c : CacheNode) (rest : Chain n) (m : Mem)
    (addr : Nat) :
    fourEq c.self.statistics (cacheFetch c rest m addr).self.statistics :=
  (cacheFetch_rel c rest m addr).1.2.2.1

/-- A parent cache with 32-byte blocks, for the C7 counterexample. -/
def c7parent : CacheNode :=
  mkCacheNode
    { cacheSize := 1024, blockSize := 32, blockNum := 32, associativity := 1
      hitLatency := 1, missLatency := 8 }

/-- C7 counterexample: the victim cache's block size is hard-coded to 64
bytes, not the parent's block size (32 here). -/
theorem C7_counterexample :
    ∃ v, (c7parent.setVictimCache true).victim = some v
      ∧ v.policy.blockSize ≠ c7parent.self.policy.blockSize :=
  ⟨mkCacheState victimCachePolicy, rfl, by decide⟩

/-- C7 amended: `setVictimCache(true)` installs a fresh victim cache with
the hard-coded policy 8 KiB / 64-byte blocks (whatever the parent's block
size) / fully associative (associativity = blockNum = 128) / hitLatency 1
/ missLatency 8; the parent's own state is untouched (the victim hangs
off the node, outside the lower-level chain). -/
theorem C7_victim_construction (c : CacheNode) :
    (c.setVictimCache true).enableVictimCache = true
      ∧ (c.setVictimCache true).victim = some (mkCacheState victimCachePolicy)
      ∧ (c.setVictimCache true).self = c.self
      ∧ victimCachePolicy.cacheSize = 8 * 1024
      ∧ victimCachePolicy.blockSize = 64
      ∧ victimCachePolicy.associativity = victimCachePolicy.blockNum
      ∧ victimCachePolicy.blockNum = 128
      ∧ victimCachePolicy.hitLatency = 1
      ∧ victimCachePolicy.missLatency = 8
      ∧ (c.setVictimCache false).victim = none :=
  ⟨rfl, rfl, rfl, rfl, rfl, rfl, rfl, rfl, rfl, rfl⟩

/-- C1: after any trace through a freshly built hierarchy (any flag
combination), every level satisfies `numHit + numMiss = numRead +
numWrite` (victim caches included); the invariant is preserved from any
state satisfying it; `read`/`write` bump their counter and exactly one
of hit/miss; and `fetch`, `getByte` and `setByte` move none of the four
counters at their own level. -/
theorem C1_counter_invariant :
    (∀ (f1 f2 f3 : Bool) (tr : List (Char × Nat)),
        hierStatOk (Hierarchy.processTrace (mkHierarchy f1 f2 f3) tr))
      ∧ (∀ (n : Nat) (h : Hierarchy n) (tr : List (Char × Nat)),
          hierStatOk h → hierStatOk (Hierarchy.processTrace h tr))
      ∧ (∀ (n : Nat) (c : CacheNode) (rest : Chain n) (m : Mem) (addr : Nat),
          ((cacheRead c rest m addr).2).self.statistics.numRead
              = c.self.statistics.numRead + 1
            ∧ ((cacheRead c rest m addr).2).self.statistics.numHit
                + ((cacheRead c rest m addr).2).self.statistics.numMiss
              = c.self.statistics.numHit + c.self.statistics.numMiss + 1)
      ∧ (∀ (n : Nat) (c : CacheNode) (rest : Chain n) (m : Mem) (addr v : Nat),
          (cacheWrite c rest m addr v).self.statistics.numWrite
              = c.self.statistics.numWrite + 1
            ∧ (cacheWrite c rest m addr v).self.statistics.numHit
                + (cacheWrite c rest m addr v).self.statistics.numMiss
              = c.self.statistics.numHit + c.self.statistics.numMiss + 1)
      ∧ (∀ (n : Nat) (c : CacheNode) (rest : Chain n) (m : Mem) (addr : Nat),
          fourEq c.self.statistics (cacheFetch c rest m addr).self.statistics)
      ∧ (∀ (n : Nat) (c : CacheNode) (rest : Chain n) (m : Mem) (addr : Nat),
          fourEq c.self.statistics ((cacheGetByte c rest m addr).2).self.statistics)
      ∧ (∀ (n : Nat) (c : CacheNode) (rest : Chain n) (m : Mem) (addr v : Nat),
          fourEq c.self.statistics (cacheSetByte c rest m addr v).self.statistics) := by
  refine ⟨fun f1 f2 f3 tr => ?_, fun n h tr hok => ?_,
    fun n c rest m addr => ?_, fun n c rest m addr v => ?_,
    fun n c rest m addr => ?_, fun n c rest m addr => ?_,
    fun n c rest m addr v => ?_⟩
  · exact hierStatOk.preserve (processTrace_rel _ tr) (hierStatOk.mk f1 f2 f3)
  · exact hierStatOk.preserve (processTrace_rel h tr) hok
  · exact ⟨(cacheRead_counts c rest m addr).1, (cacheRead_counts c rest m addr).2.2⟩
  · exact ⟨(cacheWrite_counts c rest m addr v).1, (cacheWrite_counts c rest m addr v).2.2⟩
  · exact (cacheFetch_rel c rest m addr).1.2.2.1
  · exact (cacheGetByte_rel c rest m addr).1.2.2.1
  · exact (cacheSetByte_rel c rest m addr v).1.2.2.1

/-- C1 witness: the invariant-preservation part applied to a fresh
hierarchy and a one-read trace. -/
theorem C1_counter_invariant_witness :
    hierStatOk (Hierarchy.processTrace (mkHierarchy false false false) [('r', 0)]) :=
  C1_counter_invariant.2.1 2 (mkHierarchy false false false) [('r', 0)]
    (C1_counter_invariant.1 false false false [])

/-- C9: every reachable cache state keeps `block.id = index /
associativity`: it holds at construction, is preserved (for this level,
every lower level and every victim cache) by any trace, and under it the
checked set scan never takes the `Inconsistent ID` fatal branch. -/
theorem C9_id_invariant :
    (∀ p : Policy, idInvS (mkCacheState p))
      ∧ (∀ (f1 f2 f3 : Bool) (tr : List (Char × Nat)),
          hierIdOk (Hierarchy.processTrace (mkHierarchy f1 f2 f3) tr))
      ∧ (∀ (n : Nat) (h : Hierarchy n) (tr : List (Char × Nat)),
          hierIdOk h → hierIdOk (Hierarchy.processTrace h tr))
      ∧ (∀ (c : CacheState) (addr : Nat), idInvS c →
          c.getBlockIdChecked addr = .ok (c.getBlockId addr)) := by
  refine ⟨fun p i => rfl, fun f1 f2 f3 tr => ?_, fun n h tr hok => ?_,
    fun c addr hinv => getBlockIdChecked_ok c addr hinv⟩
  · exact hierIdOk.preserve (processTrace_rel _ tr) (hierIdOk.mk f1 f2 f3)
  · exact hierIdOk.preserve (processTrace_rel h tr) hok

/-- C9 witness: the checked lookup on a fresh L1 returns the plain
lookup's answer instead of the fatal error. -/
theorem C9_id_invariant_witness :
    (mkCacheState L1Config).getBlockIdChecked 0
      = .ok ((mkCacheState L1Config).getBlockId 0) :=
  C9_id_invariant.2.2.2 (mkCacheState L1Config) 0 (fun _ => rfl)

set_option maxRecDepth 100000 in
/-- C8: the two-record trace `r 0; r 0` through the default hierarchy
(no prefetch/FIFO/victim): L1 ends with numRead 2, numWrite 0, numHit 1,
numMiss 1, totalCycles 9 = 1 + 8 (first read misses with no writeback
charge, second hits). -/
theorem C8_trace_two_reads :
    (Hierarchy.processTrace (mkHierarchy false false false)
        [('r', 0), ('r', 0)]).l1.self.statistics
      = ⟨2, 0, 1, 1, 9⟩ := by
  decide

/-! ### The stride prefetcher, spec side -/

/-- The spec's description of one stride-predictor update: compute the
signed 32-bit delta to the previous access; a repeated delta bumps the
same-stride run (and resets the other), a changed delta bumps the
inconsistent run (resetting the same-run) and latches the new stride;
prefetching becomes active exactly when the same delta has been seen
more than three consecutive times, and is deactivated by more than three
consecutive inconsistent strides. -/
def specStrideUpdate (ps : PrefetchStatistics) (addr : Nat) : PrefetchStatistics :=
  let currentStride := int32OfInt ((addr : Int) - (ps.lastAccessAddress : Int))
  let same := if currentStride == ps.stride then ps.sameStrideCount + 1 else 0
  let diff := if currentStride == ps.stride then 0 else ps.diffStrideCount + 1
  { isPrefetching :=
      if 3 < diff then false else if 3 < same then true else ps.isPrefetching
    stride := if currentStride == ps.stride then ps.stride else currentStride
    sameStrideCount := same
    diffStrideCount := diff
    lastAccessAddress := addr }

/-- The spec's description of the prefetch issue: while prefetching is
active, first ensure the page of `addr + stride` exists and fetch that
address into L1 (no accounting); otherwise do nothing. -/
def specPrefetchStep {n : Nat} (h : Hierarchy n) (addr : Nat) : Hierarchy n :=
  if h.prefetchStatistics.isPrefetching then
    let target := uint32OfInt ((addr : Int) + h.prefetchStatistics.stride)
    let h2 := if h.mem.isPageExist target then h
              else { h with mem := (h.mem.addPage target).2 }
    h2.fetchL1 target
  else h

/-- Dispatch of the trace record to L1 (`r` reads, `w` writes 0, anything
else is rejected). -/
def specDispatch {n : Nat} (h : Hierarchy n) (op : Char) (addr : Nat) : Hierarchy n :=
  match op with
  | 'r' => h.readL1 addr
  | 'w' => h.writeL1 addr 0
  | _ => h

/-- The source's sequential stride update (bump counters, then activate
on `same > 3`, then deactivate on `diff > 3`) computes exactly the
spec's description: the two threshold rules never fire together, because
whichever counter was not bumped has just been reset to zero. -/
theorem strideUpdate_eq_spec (ps : PrefetchStatistics) (addr : Nat) :
    strideUpdate ps addr = specStrideUpdate ps addr := by
  unfold strideUpdate specStrideUpdate
  dsimp only
  by_cases hc : (int32OfInt ((addr : Int) - (ps.lastAccessAddress : Int)) == ps.stride)
      = true
  · by_cases h2 : 3 < ps.sameStrideCount + 1 <;> simp [hc, h2]
  · by_cases h2 : 3 < ps.diffStrideCount + 1 <;> simp [hc, h2]

/-- The prefetch issue never touches the predictor state. -/
theorem prefetchIssue_ps {n : Nat} (h : Hierarchy n) (addr : Nat) :
    (h.prefetchIssue addr).prefetchStatistics = h.prefetchStatistics := by
  unfold Hierarchy.prefetchIssue Hierarchy.fetchL1
  dsimp only
  split
  · split <;> rfl
  · rfl

/-- C6: the stride prefetcher.  The predictor update matches the spec's
description (`isPrefetching` becomes true exactly on a same-stride run
longer than three, false on an inconsistent run longer than three); an
inactive predictor issues nothing; an active one first ensures the page
of `addr + stride` (32-bit wrapped) and fetches it into L1 without
accounting; and a whole prefetch-enabled access is the spec pipeline:
prefetch issue, spec predictor update, then the `r`/`w` dispatch. -/
theorem C6_stride_prefetcher :
    (∀ (ps : PrefetchStatistics) (addr : Nat),
        strideUpdate ps addr = specStrideUpdate ps addr)
      ∧ (∀ (n : Nat) (h : Hierarchy n) (addr : Nat),
          (h.prefetchIssue addr).prefetchStatistics = h.prefetchStatistics)
      ∧ (∀ (n : Nat) (h : Hierarchy n) (addr : Nat),
          h.prefetchStatistics.isPrefetching = false → h.prefetchIssue addr = h)
      ∧ (∀ (n : Nat) (h : Hierarchy n) (addr : Nat),
          h.prefetchStatistics.isPrefetching = true →
          h.prefetchIssue addr
            = Hierarchy.fetchL1
                (Hierarchy.ensurePage h
                  (uint32OfInt ((addr : Int) + h.prefetchStatistics.stride)))
                (uint32OfInt ((addr : Int) + h.prefetchStatistics.stride)))
      ∧ (∀ (n : Nat) (h : Hierarchy n) (op : Char) (addr : Nat),
          h.enablePrefetch = true →
          h.processMemoryAccess op addr
            = specDispatch
                { (h.ensurePage addr).prefetchIssue addr with
                  prefetchStatistics :=
                    specStrideUpdate (h.ensurePage addr).prefetchStatistics addr }
                op addr) := by
  refine ⟨strideUpdate_eq_spec, fun n h addr => prefetchIssue_ps h addr,
    fun n h addr hp => ?_, fun n h addr hp => ?_, fun n h op addr hpre => ?_⟩
  · unfold Hierarchy.prefetchIssue
    rw [hp]
    rfl
  · unfold Hierarchy.prefetchIssue Hierarchy.ensurePage
    rw [hp]
    rfl
  · unfold Hierarchy.processMemoryAccess specDispatch
    dsimp only
    have hpe : (h.ensurePage addr).enablePrefetch = true := by
      unfold Hierarchy.ensurePage
      split
      · exact hpre
      · exact hpre
    rw [if_pos hpe, prefetchIssue_ps (h.ensurePage addr) addr,
      strideUpdate_eq_spec ((h.ensurePage addr)).prefetchStatistics addr]

/-- C3 witness: on a fresh direct-mapped cache both bound slots of the
range `[0, 2)` are invalid and the choice satisfies the spec's rules. -/
theorem C3_replacement_choice_witness :
    (0 : Nat) < 2
      ∧ specReplacementChoice (mkCacheState L1Config) 0 2
          ((mkCacheState L1Config).getReplacementBlockId 0 2) :=
  ⟨by decide, C3_replacement_choice (mkCacheState L1Config) 0 2 (by decide)⟩

/-- C6 witness: the pipeline decomposition applied to one read through a
fresh prefetch-enabled hierarchy. -/
theorem C6_stride_prefetcher_witness :
    (mkHierarchy true false false).enablePrefetch = true
      ∧ (mkHierarchy true false false).processMemoryAccess 'r' 0
          = specDispatch
              { ((mkHierarchy true false false).ensurePage 0).prefetchIssue 0 with
                prefetchStatistics :=
                  specStrideUpdate
                    ((mkHierarchy true false false).ensurePage 0).prefetchStatistics 0 }
              'r' 0 :=
  ⟨rfl, C6_stride_prefetcher.2.2.2.2 2 (mkHierarchy true false false) 'r' 0 rfl⟩

end CacheSim
